import Mathlib

/-!
# Interrupt controller of libdragon (`src/libdragon/src/interrupt.c`)

A shallow embedding of the interrupt controller: the nesting counter with the
CP0 Status register, the per-source callback lists, the MI dispatch routine and
the mask accessors, followed by the properties established about them.

Conventions of the embedding

* `int` is a 32-bit two's complement integer.  The value is kept as an `Int`
  and every increment or decrement is reduced by `wrap_int`, which is what the
  `addiu` instruction of the MIPS target does (ISO C leaves signed overflow
  undefined).
* Every store to a memory-mapped device register, every `mtc0` to the CP0
  Status register and every invocation of a callback is appended to
  `Machine.trace`, oldest event first.
* A `callback_link *` is represented by the list of nodes reachable from it
  (`0` is the empty list); the `next` field of a node is the tail of the list.
  A function pointer is its address, `0` being the null pointer.
* A callback is opaque: its invocation is recorded as an event and has no
  further effect on the machine.
-/

namespace Interrupt

/-! ## Constants -/

def MI_INTR_SP : Nat := 0x01
def MI_INTR_SI : Nat := 0x02
def MI_INTR_AI : Nat := 0x04
def MI_INTR_VI : Nat := 0x08
def MI_INTR_PI : Nat := 0x10
def MI_INTR_DP : Nat := 0x20

def MI_MASK_SP : Nat := 0x01
def MI_MASK_SI : Nat := 0x02
def MI_MASK_AI : Nat := 0x04
def MI_MASK_VI : Nat := 0x08
def MI_MASK_PI : Nat := 0x10
def MI_MASK_DP : Nat := 0x20

def MI_MASK_CLR_SP : Nat := 0x0001
def MI_MASK_SET_SP : Nat := 0x0002
def MI_MASK_CLR_SI : Nat := 0x0004
def MI_MASK_SET_SI : Nat := 0x0008
def MI_MASK_CLR_AI : Nat := 0x0010
def MI_MASK_SET_AI : Nat := 0x0020
def MI_MASK_CLR_VI : Nat := 0x0040
def MI_MASK_SET_VI : Nat := 0x0080
def MI_MASK_CLR_PI : Nat := 0x0100
def MI_MASK_SET_PI : Nat := 0x0200
def MI_MASK_CLR_DP : Nat := 0x0400
def MI_MASK_SET_DP : Nat := 0x0800

/-- Bit to set to clear the PI interrupt, `( 1 << 1 )`. -/
def PI_CLEAR_INTERRUPT : Nat := 1 <<< 1

/-- Largest value of a C `int` on the target. -/
def INT_MAX : Int := 2147483647

/-- Smallest value of a C `int` on the target. -/
def INT_MIN : Int := -2147483648

/-- Reduction of an integer to the 32-bit two's complement range. -/
def wrap_int (x : Int) : Int := (x + 2147483648) % 4294967296 - 2147483648

/-! ## Data model -/

/-- The device registers the file stores to. -/
inductive Reg where
  | MI_mode
  | MI_mask
  | AI_status
  | VI_cur_line
  | VI_v_int
  | PI_status
  deriving DecidableEq, Repr

/-- Observable actions, in the order in which they are performed. -/
inductive Event where
  /-- store of a value to a device register -/
  | write (r : Reg) (v : Nat)
  /-- `mtc0 $8,$12`: store of a value to the CP0 Status register -/
  | mtc0 (v : Nat)
  /-- invocation of the function at an address -/
  | call (f : Nat)
  deriving DecidableEq, Repr

/-- Structure of an interrupt callback; `next` is the rest of the list. -/
structure callback_link where
  callback : Nat
  deriving DecidableEq, Repr

/-- Return values of `get_interrupts_state` (declared in `libdragon.h`). -/
inductive interrupt_state_t where
  | INTERRUPTS_UNINITIALIZED
  | INTERRUPTS_DISABLED
  | INTERRUPTS_ENABLED
  deriving DecidableEq, Repr

/-- The state the file reads and writes: its globals, the CP0 Status register
(`$12`), the values the device registers deliver when read, and the trace. -/
structure Machine where
  /-- `static int __interrupt_depth` -/
  __interrupt_depth : Int
  /-- CP0 Status register; bit 0 is the global interrupt-enable flag -/
  sr : Nat
  /-- value read from `MI_regs->intr` -/
  MI_intr : Nat
  /-- value read from `MI_regs->mask` -/
  MI_mask : Nat
  /-- value read from `VI_regs->cur_line` -/
  VI_cur_line : Nat
  AI_callback : List callback_link
  VI_callback : List callback_link
  PI_callback : List callback_link
  DP_callback : List callback_link
  TI_callback : List callback_link
  trace : List Event

/-- Store to a device register. -/
def Machine.store (m : Machine) (r : Reg) (v : Nat) : Machine :=
  { m with trace := m.trace ++ [Event.write r v] }

/-- The instruction `mtc0 $8,$12` with `v` in `$8`. -/
def Machine.mtc0 (m : Machine) (v : Nat) : Machine :=
  { m with sr := v, trace := m.trace ++ [Event.mtc0 v] }

/-- The CPU global interrupt-enable flag: bit 0 of the Status register. -/
def Machine.IE (m : Machine) : Bool := m.sr.testBit 0

/-- The state of the globals when the program starts, for given hardware
values: `__interrupt_depth = -1` and all five callback lists empty. -/
def start (sr intr mask line : Nat) : Machine :=
  { __interrupt_depth := -1, sr := sr, MI_intr := intr, MI_mask := mask,
    VI_cur_line := line, AI_callback := [], VI_callback := [], PI_callback := [],
    DP_callback := [], TI_callback := [], trace := [] }

/-! ## Critical sections -/

/-- `init_interrupts`. -/
def init_interrupts (m : Machine) : Machine :=
  if m.__interrupt_depth < 0 then
    let m1 := m.store Reg.MI_mask
      (MI_MASK_CLR_SP ||| MI_MASK_CLR_SI ||| MI_MASK_CLR_AI ||| MI_MASK_CLR_VI |||
        MI_MASK_CLR_PI ||| MI_MASK_CLR_DP)
    let m2 := { m1 with __interrupt_depth := 0 }
    -- mfc0 $8,$12 ; ori $8,0x401 ; mtc0 $8,$12
    m2.mtc0 (m2.sr ||| 0x401)
  else m

/-- `disable_interrupts`. -/
def disable_interrupts (m : Machine) : Machine :=
  if m.__interrupt_depth < 0 then m
  else
    let m1 :=
      if m.__interrupt_depth = 0 then
        -- mfc0 $8,$12 ; la $9,~1 ; and $8,$9 ; mtc0 $8,$12
        m.mtc0 (m.sr &&& 0xFFFFFFFE)
      else m
    { m1 with __interrupt_depth := wrap_int (m1.__interrupt_depth + 1) }

/-- `enable_interrupts`. -/
def enable_interrupts (m : Machine) : Machine :=
  if m.__interrupt_depth < 0 then m
  else
    let m1 := { m with __interrupt_depth := wrap_int (m.__interrupt_depth - 1) }
    if m1.__interrupt_depth = 0 then
      -- mfc0 $8,$12 ; ori $8,1 ; mtc0 $8,$12
      m1.mtc0 (m1.sr ||| 1)
    else m1

/-- `get_interrupts_state`; the machine is returned with the result. -/
def get_interrupts_state (m : Machine) : interrupt_state_t × Machine :=
  if m.__interrupt_depth < 0 then
    (interrupt_state_t.INTERRUPTS_UNINITIALIZED, m)
  else if m.__interrupt_depth = 0 then
    (interrupt_state_t.INTERRUPTS_ENABLED, m)
  else
    (interrupt_state_t.INTERRUPTS_DISABLED, m)

/-! ## Sequences of calls to the critical-section functions -/

/-- A call to `disable_interrupts` or to `enable_interrupts`. -/
inductive Call where
  | disable
  | enable
  deriving DecidableEq, Repr

/-- Effect of one call. -/
def Call.exec : Call → Machine → Machine
  | Call.disable, m => disable_interrupts m
  | Call.enable, m => enable_interrupts m

/-- Effect of a sequence of calls, performed from left to right. -/
def run : List Call → Machine → Machine
  | [], m => m
  | c :: cs, m => run cs (c.exec m)

/-- `nested k cs`: with `k` disables still unmatched, the calls `cs` are
correctly paired: no enable comes without an unmatched disable before it, and
none is left unmatched at the end. -/
def nested : Nat → List Call → Prop
  | k, [] => k = 0
  | k, Call.disable :: cs => nested (k + 1) cs
  | k, Call.enable :: cs => k ≠ 0 ∧ nested (k - 1) cs

instance nested.decide : (k : Nat) → (cs : List Call) → Decidable (nested k cs)
  | k, [] => inferInstanceAs (Decidable (k = 0))
  | k, Call.disable :: cs => nested.decide (k + 1) cs
  | k, Call.enable :: cs =>
    have : Decidable (nested (k - 1) cs) := nested.decide (k - 1) cs
    inferInstanceAs (Decidable (k ≠ 0 ∧ nested (k - 1) cs))

/-- Largest number of unmatched disables met while going through `cs`,
starting with `k` of them. -/
def peak : Nat → List Call → Nat
  | k, [] => k
  | k, Call.disable :: cs => max k (peak (k + 1) cs)
  | k, Call.enable :: cs => max k (peak (k - 1) cs)

/-- Number of `mtc0` events of a trace that clear bit 0 of the Status register. -/
def flagClears : List Event → Nat
  | [] => 0
  | Event.mtc0 v :: t => (if v.testBit 0 then 0 else 1) + flagClears t
  | _ :: t => flagClears t

/-- Number of `mtc0` events of a trace that set bit 0 of the Status register. -/
def flagSets : List Event → Nat
  | [] => 0
  | Event.mtc0 v :: t => (if v.testBit 0 then 1 else 0) + flagSets t
  | _ :: t => flagSets t

/-- Number of writes to the CP0 Status register in a trace. -/
def flagWrites : List Event → Nat
  | [] => 0
  | Event.mtc0 _ :: t => 1 + flagWrites t
  | _ :: t => flagWrites t

/-- A machine in which interrupts are enabled and nothing is registered. -/
def enabled0 : Machine := init_interrupts (start 0 0 0 0)

/-- An initialized machine whose nesting counter holds the largest `int`. -/
def deepest : Machine :=
  { __interrupt_depth := 2147483647, sr := 0x400, MI_intr := 0, MI_mask := 0,
    VI_cur_line := 0, AI_callback := [], VI_callback := [], PI_callback := [],
    DP_callback := [], TI_callback := [], trace := [] }

/-- A machine inside one critical section: initialized, then disabled once. -/
def disabled1 : Machine := disable_interrupts enabled0

/-! ## Callback lists -/

/-- The five list heads of the file, as passed by address (`&AI_callback`, ...)
to the list functions. -/
inductive Head where
  | AI_callback
  | VI_callback
  | PI_callback
  | DP_callback
  | TI_callback
  deriving DecidableEq, Repr

/-- The list a head points to: `*head`. -/
def Machine.load (m : Machine) : Head → List callback_link
  | Head.AI_callback => m.AI_callback
  | Head.VI_callback => m.VI_callback
  | Head.PI_callback => m.PI_callback
  | Head.DP_callback => m.DP_callback
  | Head.TI_callback => m.TI_callback

/-- Assignment to a head: `*head = l`. -/
def Machine.assign (m : Machine) (head : Head) (l : List callback_link) : Machine :=
  match head with
  | Head.AI_callback => { m with AI_callback := l }
  | Head.VI_callback => { m with VI_callback := l }
  | Head.PI_callback => { m with PI_callback := l }
  | Head.DP_callback => { m with DP_callback := l }
  | Head.TI_callback => { m with TI_callback := l }

/-- Invocation of the function at address `f`. -/
def Machine.invoke (m : Machine) (f : Nat) : Machine :=
  { m with trace := m.trace ++ [Event.call f] }

/-- `__call_callback`: the `while( head )` loop over the list. -/
def __call_callback : List callback_link → Machine → Machine
  | [], m => m
  | head :: next, m =>
    let m1 := if head.callback ≠ 0 then m.invoke head.callback else m
    __call_callback next m1

/-- `__register_callback`.  `head` is `none` for a null `head` argument;
`n64_malloc` tells whether the allocator returned a node (`true`) or the null
pointer (`false`). -/
def __register_callback (head : Option Head) (callback : Nat) (n64_malloc : Bool)
    (m : Machine) : Machine :=
  match head with
  | none => m
  | some head =>
    let next := m.load head
    -- (*head) = n64_malloc(sizeof(struct callback_link));
    if n64_malloc then
      -- (*head)->next=next; (*head)->callback=callback;
      m.assign head ({ callback := callback } :: next)
    else
      m.assign head []

/-- The `while( cur )` loop of `__unregister_callback`, giving the list `*head`
points to when the loop is left.  `passed` holds the nodes already stepped
over, the last of them being `last` (none: `last` is null); the second
argument is the list at `cur`. -/
def unregister_loop (callback : Nat) (passed : List callback_link) :
    List callback_link → List callback_link
  | [] => passed
  | cur :: next =>
    if cur.callback = callback then
      -- last->next = cur->next, or *head = cur->next when there is no last
      passed ++ next
    else
      unregister_loop callback (passed ++ [cur]) next

/-- `__unregister_callback`; `head` is `none` for a null `head` argument. -/
def __unregister_callback (head : Option Head) (callback : Nat) (m : Machine) : Machine :=
  match head with
  | none => m
  | some head => m.assign head (unregister_loop callback [] (m.load head))

/-- The calls a dispatch over a list is expected to make: one per node with a
non-null callback, in list order. -/
def invoked (l : List callback_link) : List Event :=
  (l.filter (fun n => n.callback ≠ 0)).map (fun n => Event.call n.callback)

/-! ## Dispatch -/

/-- `__MI_handler`. -/
def __MI_handler (m : Machine) : Machine :=
  let status := m.MI_intr &&& m.MI_mask
  -- SP and SI: nothing is done yet
  let m0 := if status &&& MI_INTR_SP ≠ 0 then m else m
  let m1 := if status &&& MI_INTR_SI ≠ 0 then m0 else m0
  let m2 :=
    if status &&& MI_INTR_AI ≠ 0 then
      __call_callback m1.AI_callback (m1.store Reg.AI_status 0)
    else m1
  let m3 :=
    if status &&& MI_INTR_VI ≠ 0 then
      __call_callback m2.VI_callback (m2.store Reg.VI_cur_line m2.VI_cur_line)
    else m2
  let m4 :=
    if status &&& MI_INTR_PI ≠ 0 then
      __call_callback m3.PI_callback (m3.store Reg.PI_status PI_CLEAR_INTERRUPT)
    else m3
  if status &&& MI_INTR_DP ≠ 0 then
    __call_callback m4.DP_callback (m4.store Reg.MI_mode 0x0800)
  else m4

/-- `__TI_handler`. -/
def __TI_handler (m : Machine) : Machine :=
  __call_callback m.TI_callback m

/-- The four sources `__MI_handler` services. -/
inductive Source where
  | AI
  | VI
  | PI
  | DP
  deriving DecidableEq, Repr

/-- Interrupt bit of a source in the MI interrupt and mask registers. -/
def Source.bit : Source → Nat
  | Source.AI => MI_INTR_AI
  | Source.VI => MI_INTR_VI
  | Source.PI => MI_INTR_PI
  | Source.DP => MI_INTR_DP

/-- The store by which the handler acknowledges a source. -/
def Source.ack (m : Machine) : Source → Event
  | Source.AI => Event.write Reg.AI_status 0
  | Source.VI => Event.write Reg.VI_cur_line m.VI_cur_line
  | Source.PI => Event.write Reg.PI_status PI_CLEAR_INTERRUPT
  | Source.DP => Event.write Reg.MI_mode 0x0800

/-- The callback list of a source. -/
def Source.registry (m : Machine) : Source → List callback_link
  | Source.AI => m.AI_callback
  | Source.VI => m.VI_callback
  | Source.PI => m.PI_callback
  | Source.DP => m.DP_callback

/-- A source is active when its bit is set in `intr & mask`. -/
def Source.active (m : Machine) (x : Source) : Bool :=
  (m.MI_intr &&& m.MI_mask) &&& x.bit ≠ 0

/-- What the handler is expected to do for one source: nothing when it is not
active, else the acknowledgment followed by the calls of its list. -/
def Source.service (m : Machine) (x : Source) : List Event :=
  if x.active m then x.ack m :: invoked (x.registry m) else []

/-- The four sources in the order in which the handler tests them. -/
def Source.order : List Source := [Source.AI, Source.VI, Source.PI, Source.DP]

/-- For the sources of a list, taken in list order: the acknowledgment of the
source followed by the calls of its list. -/
def blocks (m : Machine) : List Source → List Event
  | [] => []
  | z :: l => (z.ack m :: invoked (z.registry m)) ++ blocks m l

/-! ## Mask accessors -/

/-- `set_AI_interrupt`. -/
def set_AI_interrupt (active : Int) (m : Machine) : Machine :=
  if active ≠ 0 then m.store Reg.MI_mask MI_MASK_SET_AI
  else m.store Reg.MI_mask MI_MASK_CLR_AI

/-- `set_VI_interrupt`. -/
def set_VI_interrupt (active : Int) (line : Nat) (m : Machine) : Machine :=
  if active ≠ 0 then
    (m.store Reg.MI_mask MI_MASK_SET_VI).store Reg.VI_v_int line
  else m.store Reg.MI_mask MI_MASK_CLR_VI

/-- `set_PI_interrupt`. -/
def set_PI_interrupt (active : Int) (m : Machine) : Machine :=
  if active ≠ 0 then m.store Reg.MI_mask MI_MASK_SET_PI
  else m.store Reg.MI_mask MI_MASK_CLR_PI

/-- `set_DP_interrupt`. -/
def set_DP_interrupt (active : Int) (m : Machine) : Machine :=
  if active ≠ 0 then m.store Reg.MI_mask MI_MASK_SET_DP
  else m.store Reg.MI_mask MI_MASK_CLR_DP

/-- An initialized machine with callbacks registered: 7, 9 and 7 again for AI,
5 for PI; AI and PI are pending and only AI is unmasked. -/
def sample : Machine :=
  { __interrupt_depth := 0, sr := 0x401, MI_intr := 0x14, MI_mask := 0x04,
    VI_cur_line := 2, AI_callback := [⟨7⟩, ⟨9⟩, ⟨7⟩], VI_callback := [],
    PI_callback := [⟨5⟩], DP_callback := [], TI_callback := [], trace := [] }

/-- An initialized machine in which AI and PI are pending and unmasked. -/
def busy : Machine :=
  { __interrupt_depth := 0, sr := 0x401, MI_intr := 0x14, MI_mask := 0x14,
    VI_cur_line := 2, AI_callback := [⟨7⟩], VI_callback := [],
    PI_callback := [⟨5⟩], DP_callback := [], TI_callback := [], trace := [] }

/-! ## Sequences of calls that may include the initialization -/

/-- A call to `init_interrupts`, `disable_interrupts` or `enable_interrupts`. -/
inductive Op where
  | init
  | disable
  | enable
  deriving DecidableEq, Repr

/-- Effect of one call. -/
def Op.exec : Op → Machine → Machine
  | Op.init, m => init_interrupts m
  | Op.disable, m => disable_interrupts m
  | Op.enable, m => enable_interrupts m

/-- Effect of a sequence of calls, performed from left to right. -/
def runOps : List Op → Machine → Machine
  | [], m => m
  | o :: os, m => runOps os (o.exec m)

/-- The twelve command values of the MI mask register, in the order in which
the file defines them. -/
def MI_MASK_commands : List Nat :=
  [MI_MASK_CLR_SP, MI_MASK_SET_SP, MI_MASK_CLR_SI, MI_MASK_SET_SI,
   MI_MASK_CLR_AI, MI_MASK_SET_AI, MI_MASK_CLR_VI, MI_MASK_SET_VI,
   MI_MASK_CLR_PI, MI_MASK_SET_PI, MI_MASK_CLR_DP, MI_MASK_SET_DP]

/-- The writes to the MI mask register in a trace, oldest first. -/
def maskWrites : List Event → List Nat
  | [] => []
  | Event.write Reg.MI_mask v :: t => v :: maskWrites t
  | _ :: t => maskWrites t

/-- The invariant of the critical-section functions: the counter is within
`int`, and when it is not negative the interrupt-enable flag is set exactly
when the counter is 0. -/
def Consistent (m : Machine) : Prop :=
  INT_MIN ≤ m.__interrupt_depth ∧ m.__interrupt_depth ≤ INT_MAX ∧
  (0 ≤ m.__interrupt_depth → (m.IE = true ↔ m.__interrupt_depth = 0))

/-- An initialized machine in which AI, VI, PI and DP are all pending and
unmasked, each with one callback. -/
def crowded : Machine :=
  { __interrupt_depth := 0, sr := 0x401, MI_intr := 0x3c, MI_mask := 0x3f,
    VI_cur_line := 2, AI_callback := [⟨7⟩], VI_callback := [⟨8⟩],
    PI_callback := [⟨5⟩], DP_callback := [⟨6⟩], TI_callback := [], trace := [] }

/-! ## Basic facts about the critical-section functions -/

theorem wrap_int_id (x : Int) (h1 : INT_MIN ≤ x) (h2 : x ≤ INT_MAX) : wrap_int x = x := by
  unfold INT_MIN at h1
  unfold INT_MAX at h2
  unfold wrap_int
  omega

theorem disable_uninit (m : Machine) (h : m.__interrupt_depth < 0) :
    disable_interrupts m = m := by
  simp [disable_interrupts, h]

theorem enable_uninit (m : Machine) (h : m.__interrupt_depth < 0) :
    enable_interrupts m = m := by
  simp [enable_interrupts, h]

theorem disable_depth (m : Machine) (h0 : 0 ≤ m.__interrupt_depth)
    (h1 : m.__interrupt_depth + 1 ≤ INT_MAX) :
    (disable_interrupts m).__interrupt_depth = m.__interrupt_depth + 1 := by
  have hw : wrap_int (m.__interrupt_depth + 1) = m.__interrupt_depth + 1 :=
    wrap_int_id _ (by unfold INT_MIN; omega) h1
  unfold disable_interrupts
  rw [if_neg (by omega)]
  by_cases hz : m.__interrupt_depth = 0
  · simp only [hz, if_true, Machine.mtc0]
    simpa [hz] using hw
  · simp only [hz, if_false]
    exact hw

theorem enable_depth (m : Machine) (h0 : 0 ≤ m.__interrupt_depth)
    (h1 : m.__interrupt_depth ≤ INT_MAX) :
    (enable_interrupts m).__interrupt_depth = m.__interrupt_depth - 1 := by
  have hw : wrap_int (m.__interrupt_depth - 1) = m.__interrupt_depth - 1 :=
    wrap_int_id _ (by unfold INT_MIN; omega) (by omega)
  unfold enable_interrupts
  rw [if_neg (by omega)]
  simp only [hw]
  split <;> simp [Machine.mtc0]

theorem peak_ge (cs : List Call) : ∀ k, k ≤ peak k cs := by
  induction cs with
  | nil => intro k; simp [peak]
  | cons c cs _ => intro k; cases c <;> simp [peak]

theorem run_append (a b : List Call) : ∀ m, run (a ++ b) m = run b (run a m) := by
  induction a with
  | nil => intro m; rfl
  | cons c a ih => intro m; simp [run, ih]

/-- Correctly paired calls bring the counter back by the number of disables that
were unmatched, as long as the counter stays in the range of `int`. -/
theorem run_nested_depth (cs : List Call) : ∀ (k : Nat) (m : Machine), nested k cs →
    (k : Int) ≤ m.__interrupt_depth →
    m.__interrupt_depth - k + peak k cs ≤ INT_MAX →
    (run cs m).__interrupt_depth = m.__interrupt_depth - k := by
  induction cs with
  | nil =>
    intro k m hn _ _
    simp only [nested] at hn
    simp [run, hn]
  | cons c cs ih =>
    intro k m hn hk hb
    have hp := peak_ge cs
    cases c with
    | disable =>
      simp only [nested] at hn
      simp only [peak] at hb
      have hp1 := hp (k + 1)
      have hd := disable_depth m (by omega) (by omega)
      simp only [run, Call.exec]
      rw [ih (k + 1) _ hn (by rw [hd]; push_cast; omega) (by rw [hd]; push_cast; omega), hd]
      push_cast
      omega
    | enable =>
      simp only [nested] at hn
      simp only [peak] at hb
      obtain ⟨hk0, hn⟩ := hn
      have hp1 := hp (k - 1)
      have hd := enable_depth m (by omega) (by omega)
      simp only [run, Call.exec]
      rw [ih (k - 1) _ hn (by rw [hd]; omega) (by rw [hd]; omega), hd]
      omega

theorem run_disables (n : Nat) : ∀ m : Machine, 0 ≤ m.__interrupt_depth →
    m.__interrupt_depth + n ≤ INT_MAX →
    (run (List.replicate n Call.disable) m).__interrupt_depth = m.__interrupt_depth + n := by
  induction n with
  | zero => intro m _ _; simp [run]
  | succ n ih =>
    intro m h0 hb
    have hd := disable_depth m h0 (by push_cast at hb; omega)
    simp only [List.replicate_succ, run, Call.exec]
    rw [ih _ (by rw [hd]; omega) (by rw [hd]; push_cast at hb ⊢; omega), hd]
    push_cast
    omega

theorem run_enables (n : Nat) : ∀ m : Machine, (n : Int) ≤ m.__interrupt_depth →
    m.__interrupt_depth ≤ INT_MAX →
    (run (List.replicate n Call.enable) m).__interrupt_depth = m.__interrupt_depth - n := by
  induction n with
  | zero => intro m _ _; simp [run]
  | succ n ih =>
    intro m h0 hb
    have hd := enable_depth m (by push_cast at h0; omega) hb
    simp only [List.replicate_succ, run, Call.exec]
    rw [ih _ (by rw [hd]; push_cast at h0; omega) (by rw [hd]; omega), hd]
    push_cast
    omega

/-! ## C1 -/

/-- C1, as stated, fails at the top of the range of `int`: with the counter at
2147483647 the increment of `disable_interrupts` wraps to -2147483648, the
machine then counts as uninitialized and `enable_interrupts` returns at once, so
the correctly paired sequence disable, enable does not give the depth back. -/
theorem c1_fails_at_int_max :
    0 ≤ deepest.__interrupt_depth ∧ nested 0 [Call.disable, Call.enable] ∧
    (run [Call.disable, Call.enable] deepest).__interrupt_depth = -2147483648 ∧
    (run [Call.disable, Call.enable] deepest).__interrupt_depth ≠ deepest.__interrupt_depth := by
  decide

/-- C1 (amended): from an initialized state (depth `d ≥ 0`), every correctly
paired sequence of `disable_interrupts`/`enable_interrupts` calls whose nesting
keeps the counter within `int` (`d` plus the deepest nesting is at most
`INT_MAX`) ends with nesting depth `d`; in particular `n` disables followed by
`n` enables do, for every `n` with `d + n ≤ INT_MAX`. -/
theorem paired_calls_restore_depth (m : Machine) (h0 : 0 ≤ m.__interrupt_depth) :
    (∀ cs : List Call, nested 0 cs → m.__interrupt_depth + peak 0 cs ≤ INT_MAX →
      (run cs m).__interrupt_depth = m.__interrupt_depth) ∧
    (∀ n : Nat, m.__interrupt_depth + n ≤ INT_MAX →
      (run (List.replicate n Call.disable ++ List.replicate n Call.enable) m).__interrupt_depth
        = m.__interrupt_depth) := by
  constructor
  · intro cs hn hb
    have h := run_nested_depth cs 0 m hn (by simpa using h0) (by simpa using hb)
    simpa using h
  · intro n hb
    have hd := run_disables n m h0 hb
    rw [run_append, run_enables n _ (by rw [hd]; omega) (by rw [hd]; exact hb), hd]
    omega

/-- Instance of C1 (amended): from the enabled state, a nested sequence of six
calls and three disables followed by three enables both end at depth 0. -/
theorem paired_calls_restore_depth_witness :
    (run [Call.disable, Call.disable, Call.enable, Call.disable, Call.enable, Call.enable]
        enabled0).__interrupt_depth = enabled0.__interrupt_depth ∧
    (run (List.replicate 3 Call.disable ++ List.replicate 3 Call.enable)
        enabled0).__interrupt_depth = enabled0.__interrupt_depth :=
  ⟨(paired_calls_restore_depth enabled0 (by decide)).1 _ (by decide) (by decide),
   (paired_calls_restore_depth enabled0 (by decide)).2 3 (by decide)⟩

/-! ## C2 -/

theorem disable_at_zero (m : Machine) (h : m.__interrupt_depth = 0) :
    disable_interrupts m =
      { m.mtc0 (m.sr &&& 0xFFFFFFFE) with __interrupt_depth := wrap_int (0 + 1) } := by
  simp [disable_interrupts, h, Machine.mtc0]

theorem disable_above_zero (m : Machine) (h : 0 < m.__interrupt_depth) :
    disable_interrupts m =
      { m with __interrupt_depth := wrap_int (m.__interrupt_depth + 1) } := by
  unfold disable_interrupts
  rw [if_neg (by omega), if_neg (by omega)]

theorem enable_to_zero (m : Machine) (h0 : 0 ≤ m.__interrupt_depth)
    (h : wrap_int (m.__interrupt_depth - 1) = 0) :
    enable_interrupts m =
      ({ m with __interrupt_depth := wrap_int (m.__interrupt_depth - 1) } : Machine).mtc0
        (m.sr ||| 1) := by
  unfold enable_interrupts
  rw [if_neg (by omega)]
  simp [h]

theorem enable_not_to_zero (m : Machine) (h0 : 0 ≤ m.__interrupt_depth)
    (h : wrap_int (m.__interrupt_depth - 1) ≠ 0) :
    enable_interrupts m =
      { m with __interrupt_depth := wrap_int (m.__interrupt_depth - 1) } := by
  unfold enable_interrupts
  rw [if_neg (by omega)]
  simp [h]

theorem or_one_testBit (x : Nat) : (x ||| 1).testBit 0 = true := by
  simp [Nat.testBit_or]

theorem and_not_one_testBit (x : Nat) : (x &&& 0xFFFFFFFE).testBit 0 = false := by
  rw [Nat.testBit_and]
  have : Nat.testBit 0xFFFFFFFE 0 = false := by decide
  simp [this]

/-- C2: in an initialized state the CP0 Status register is written only at the
boundary between depth 0 and depth 1.  `disable_interrupts` performs its one
`mtc0`, which clears the interrupt-enable bit, exactly when the depth before the
call is 0; `enable_interrupts` performs its one `mtc0`, which sets the bit,
exactly when the depth after its decrement is 0; in every other call no `mtc0`
happens and the register keeps its value.  Hence a disable/enable pair issued
at depth 1 or more leaves the register and the trace as they were. -/
theorem flag_written_only_at_boundary (m : Machine) (h0 : 0 ≤ m.__interrupt_depth) :
    ((disable_interrupts m).trace =
        m.trace ++ (if m.__interrupt_depth = 0 then [Event.mtc0 (m.sr &&& 0xFFFFFFFE)] else [])) ∧
    (m.__interrupt_depth = 0 → (disable_interrupts m).IE = false) ∧
    (m.__interrupt_depth ≠ 0 → (disable_interrupts m).sr = m.sr) ∧
    ((enable_interrupts m).__interrupt_depth = wrap_int (m.__interrupt_depth - 1)) ∧
    ((enable_interrupts m).trace =
        m.trace ++ (if wrap_int (m.__interrupt_depth - 1) = 0 then [Event.mtc0 (m.sr ||| 1)]
          else [])) ∧
    (wrap_int (m.__interrupt_depth - 1) = 0 → (enable_interrupts m).IE = true) ∧
    (wrap_int (m.__interrupt_depth - 1) ≠ 0 → (enable_interrupts m).sr = m.sr) ∧
    (1 ≤ m.__interrupt_depth → m.__interrupt_depth ≤ INT_MAX →
      (enable_interrupts (disable_interrupts m)).sr = m.sr ∧
      (enable_interrupts (disable_interrupts m)).trace = m.trace) := by
  refine ⟨?_, ?_, ?_, ?_, ?_, ?_, ?_, ?_⟩
  · by_cases hz : m.__interrupt_depth = 0
    · rw [disable_at_zero m hz]; simp [hz, Machine.mtc0]
    · rw [disable_above_zero m (by omega)]; simp [hz]
  · intro hz
    rw [disable_at_zero m hz]
    simp only [Machine.IE, Machine.mtc0]
    exact and_not_one_testBit _
  · intro hz
    rw [disable_above_zero m (by omega)]
  · by_cases hz : wrap_int (m.__interrupt_depth - 1) = 0
    · rw [enable_to_zero m h0 hz]; simp [Machine.mtc0]
    · rw [enable_not_to_zero m h0 hz]
  · by_cases hz : wrap_int (m.__interrupt_depth - 1) = 0
    · rw [enable_to_zero m h0 hz]; simp [hz, Machine.mtc0]
    · rw [enable_not_to_zero m h0 hz]; simp [hz]
  · intro hz
    rw [enable_to_zero m h0 hz]
    simp only [Machine.IE, Machine.mtc0]
    exact or_one_testBit _
  · intro hz
    rw [enable_not_to_zero m h0 hz]
  · intro h1 h2
    rw [disable_above_zero m (by omega)]
    by_cases hneg : wrap_int (m.__interrupt_depth + 1) < 0
    · rw [enable_uninit _ (by simpa using hneg)]
      simp
    · have hw : wrap_int (wrap_int (m.__interrupt_depth + 1) - 1) ≠ 0 := by
        unfold INT_MAX at h2
        unfold wrap_int at hneg ⊢
        omega
      rw [enable_not_to_zero _ (by simpa using hneg) (by simpa using hw)]
      simp

/-- Instance of C2: the outermost disable and enable each write the Status
register once, and a pair issued inside a critical section writes nothing. -/
theorem flag_written_only_at_boundary_witness :
    (disable_interrupts enabled0).trace = enabled0.trace ++ [Event.mtc0 0x400] ∧
    (enable_interrupts disabled1).trace = disabled1.trace ++ [Event.mtc0 0x401] ∧
    (enable_interrupts (disable_interrupts disabled1)).sr = disabled1.sr ∧
    (enable_interrupts (disable_interrupts disabled1)).trace = disabled1.trace :=
  ⟨(flag_written_only_at_boundary enabled0 (by decide)).1,
   (flag_written_only_at_boundary disabled1 (by decide)).2.2.2.2.1,
   (flag_written_only_at_boundary disabled1 (by decide)).2.2.2.2.2.2.2 (by decide) (by decide)⟩

/-! ## C3 -/

theorem run_uninit (cs : List Call) : ∀ m : Machine, m.__interrupt_depth < 0 → run cs m = m := by
  induction cs with
  | nil => intro m _; rfl
  | cons c cs ih =>
    intro m h
    cases c
    · simp only [run, Call.exec]; rw [disable_uninit m h]; exact ih m h
    · simp only [run, Call.exec]; rw [enable_uninit m h]; exact ih m h

theorem peak_append_ge (a b : List Call) : ∀ k, peak k a ≤ peak k (a ++ b) := by
  induction a with
  | nil => intro k; simpa [peak] using peak_ge b k
  | cons c a ih =>
    intro k
    cases c
    · have := ih (k + 1); rw [List.cons_append]; simp only [peak]; omega
    · have := ih (k - 1); rw [List.cons_append]; simp only [peak]; omega

theorem peak_shift (cs : List Call) : ∀ (k j : Nat), nested k cs →
    peak (k + j) cs = peak k cs + j := by
  induction cs with
  | nil => intro k j _; simp [peak]
  | cons c cs ih =>
    intro k j hn
    cases c with
    | disable =>
      simp only [nested] at hn
      have := ih (k + 1) j hn
      have e : k + j + 1 = k + 1 + j := by omega
      simp only [peak, e, this]
      omega
    | enable =>
      simp only [nested] at hn
      have := ih (k - 1) j hn.2
      have e : k + j - 1 = k - 1 + j := by omega
      simp only [peak, e, this]
      omega

/-- Inside a critical section (depth at least 1 below the calls considered)
correctly paired calls change nothing but the counter. -/
theorem run_nested_inside (cs : List Call) : ∀ (k : Nat) (m : Machine), nested k cs →
    (k : Int) + 1 ≤ m.__interrupt_depth →
    m.__interrupt_depth - k + peak k cs ≤ INT_MAX →
    run cs m = { m with __interrupt_depth := m.__interrupt_depth - k } := by
  induction cs with
  | nil =>
    intro k m hn _ _
    simp only [nested] at hn
    simp [run, hn]
  | cons c cs ih =>
    intro k m hn hk hb
    have hp := peak_ge cs
    cases c with
    | disable =>
      simp only [nested] at hn
      simp only [peak] at hb
      have hp1 := hp (k + 1)
      have hw : wrap_int (m.__interrupt_depth + 1) = m.__interrupt_depth + 1 :=
        wrap_int_id _ (by unfold INT_MIN; omega) (by omega)
      simp only [run, Call.exec]
      rw [disable_above_zero m (by omega), hw,
        ih (k + 1) _ hn (by simp only []; push_cast; omega) (by simp only []; push_cast; omega)]
      simp only [Machine.mk.injEq, and_true, true_and]
      push_cast
      omega
    | enable =>
      simp only [nested] at hn
      simp only [peak] at hb
      obtain ⟨hk0, hn⟩ := hn
      have hp1 := hp (k - 1)
      have hw : wrap_int (m.__interrupt_depth - 1) = m.__interrupt_depth - 1 :=
        wrap_int_id _ (by unfold INT_MIN; omega) (by omega)
      simp only [run, Call.exec]
      rw [enable_not_to_zero m (by omega) (by rw [hw]; omega), hw,
        ih (k - 1) _ hn (by simp only []; omega) (by simp only []; omega)]
      simp only [Machine.mk.injEq, and_true, true_and]
      omega

theorem enable_IE (m : Machine) (h0 : 0 ≤ m.__interrupt_depth) :
    (enable_interrupts m).IE = (if wrap_int (m.__interrupt_depth - 1) = 0 then true else m.IE) := by
  by_cases hz : wrap_int (m.__interrupt_depth - 1) = 0
  · rw [enable_to_zero m h0 hz]
    simp only [hz, if_true, Machine.IE, Machine.mtc0]
    exact or_one_testBit _
  · rw [enable_not_to_zero m h0 hz]
    simp [hz, Machine.IE]

/-- A correctly paired sequence that starts at the outermost level (counter
equal to the number of unmatched disables) ends with the flag set. -/
theorem run_nested_outer (cs : List Call) : ∀ (k : Nat) (m : Machine), nested k cs →
    m.__interrupt_depth = k → (k = 0 → m.IE = true) → (peak k cs : Int) ≤ INT_MAX →
    (run cs m).IE = true := by
  induction cs with
  | nil =>
    intro k m hn _ hie _
    simp only [nested] at hn
    simpa [run] using hie hn
  | cons c cs ih =>
    intro k m hn hk hie hb
    have hp := peak_ge cs
    cases c with
    | disable =>
      simp only [nested] at hn
      simp only [peak] at hb
      have hp1 := hp (k + 1)
      have hd := disable_depth m (by omega) (by omega)
      simp only [run, Call.exec]
      exact ih (k + 1) _ hn (by rw [hd, hk]; push_cast; rfl) (by omega) (by omega)
    | enable =>
      simp only [nested] at hn
      simp only [peak] at hb
      obtain ⟨hk0, hn⟩ := hn
      have hp1 := hp (k - 1)
      have hd := enable_depth m (by omega) (by omega)
      have hw : wrap_int (m.__interrupt_depth - 1) = m.__interrupt_depth - 1 :=
        wrap_int_id _ (by unfold INT_MIN; omega) (by omega)
      simp only [run, Call.exec]
      refine ih (k - 1) _ hn (by rw [hd, hk]; omega) ?_ (by omega)
      intro hk1
      rw [enable_IE m (by omega), hw, if_pos (by omega)]

theorem enable_trace (m : Machine) (h0 : 0 ≤ m.__interrupt_depth) :
    (enable_interrupts m).trace =
      m.trace ++ (if wrap_int (m.__interrupt_depth - 1) = 0 then [Event.mtc0 (m.sr ||| 1)]
        else []) := by
  by_cases hz : wrap_int (m.__interrupt_depth - 1) = 0
  · rw [enable_to_zero m h0 hz]; simp [hz, Machine.mtc0]
  · rw [enable_not_to_zero m h0 hz]; simp [hz]

/-- Inside a critical section correctly paired calls never write the Status
register, also when the counter leaves the range of `int` on the way (it is
negative from then on and every later call returns at once). -/
theorem run_nested_inside_any (cs : List Call) : ∀ (k : Nat) (m : Machine), nested k cs →
    (k : Int) + 1 ≤ m.__interrupt_depth → m.__interrupt_depth ≤ INT_MAX →
    (run cs m).sr = m.sr ∧ (run cs m).trace = m.trace ∧
      ((run cs m).__interrupt_depth < 0 ∨
        (run cs m).__interrupt_depth = m.__interrupt_depth - k) := by
  induction cs with
  | nil =>
    intro k m hn _ _
    simp only [nested] at hn
    simp [run, hn]
  | cons c cs ih =>
    intro k m hn hk hb
    cases c with
    | disable =>
      simp only [nested] at hn
      simp only [run, Call.exec]
      rw [disable_above_zero m (by omega)]
      by_cases hmax : m.__interrupt_depth + 1 ≤ INT_MAX
      · have hw : wrap_int (m.__interrupt_depth + 1) = m.__interrupt_depth + 1 :=
          wrap_int_id _ (by unfold INT_MIN; omega) hmax
        rw [hw]
        obtain ⟨h1, h2, h3⟩ := ih (k + 1) { m with __interrupt_depth := m.__interrupt_depth + 1 }
          hn (by simp only []; push_cast; omega) hmax
        refine ⟨h1, h2, ?_⟩
        rcases h3 with h3 | h3
        · exact Or.inl h3
        · right; rw [h3]; simp only []; push_cast; omega
      · have hneg : wrap_int (m.__interrupt_depth + 1) < 0 := by
          unfold INT_MAX at hb hmax
          unfold wrap_int
          omega
        rw [run_uninit cs _ hneg]
        exact ⟨rfl, rfl, Or.inl hneg⟩
    | enable =>
      simp only [nested] at hn
      obtain ⟨hk0, hn⟩ := hn
      have hw : wrap_int (m.__interrupt_depth - 1) = m.__interrupt_depth - 1 :=
        wrap_int_id _ (by unfold INT_MIN; omega) (by omega)
      simp only [run, Call.exec]
      rw [enable_not_to_zero m (by omega) (by rw [hw]; omega), hw]
      obtain ⟨h1, h2, h3⟩ := ih (k - 1) { m with __interrupt_depth := m.__interrupt_depth - 1 }
        hn (by simp only []; omega) (by simp only []; omega)
      refine ⟨h1, h2, ?_⟩
      rcases h3 with h3 | h3
      · exact Or.inl h3
      · right; rw [h3]; simp only []; omega

theorem run_disables_inside (n : Nat) : ∀ m : Machine, 1 ≤ m.__interrupt_depth →
    m.__interrupt_depth + n ≤ INT_MAX →
    run (List.replicate n Call.disable) m =
      { m with __interrupt_depth := m.__interrupt_depth + n } := by
  induction n with
  | zero => intro m _ _; simp [run]
  | succ n ih =>
    intro m h1 hb
    have hw : wrap_int (m.__interrupt_depth + 1) = m.__interrupt_depth + 1 :=
      wrap_int_id _ (by unfold INT_MIN; omega) (by push_cast at hb; omega)
    rw [List.replicate_succ]
    simp only [run, Call.exec]
    rw [disable_above_zero m (by omega), hw,
      ih _ (by simp only []; omega) (by simp only []; push_cast at hb ⊢; omega)]
    simp only [Machine.mk.injEq, and_true, true_and]
    push_cast
    omega

/-- From depth 0, as many disables as it takes to leave the range of `int`,
followed by as many enables, end with the flag clear: the first disable clears
it, the last one makes the counter negative, and no enable does anything. -/
theorem run_past_int_max (n : Nat) (m : Machine) (h0 : m.__interrupt_depth = 0)
    (hn : (n : Int) = INT_MAX + 1) :
    (run (List.replicate n Call.disable ++ List.replicate n Call.enable) m).IE = false := by
  unfold INT_MAX at hn
  obtain ⟨k, rfl⟩ : ∃ k, n = (k + 1) + 1 := ⟨n - 2, by omega⟩
  have h1 : wrap_int (0 + 1) = 1 := by decide
  have hneg : wrap_int (1 + (k : Int) + 1) < 0 := by
    unfold wrap_int
    push_cast at hn
    omega
  have hD : run (List.replicate (k + 1 + 1) Call.disable) m =
      { m.mtc0 (m.sr &&& 0xFFFFFFFE) with
        __interrupt_depth := wrap_int (1 + (k : Int) + 1) } := by
    rw [List.replicate_succ, List.replicate_succ', run.eq_2, run_append]
    simp only [Call.exec]
    rw [disable_at_zero m h0, h1,
      run_disables_inside k _ (by simp) (by simp only []; unfold INT_MAX; push_cast at hn; omega)]
    simp only [run, Call.exec]
    rw [disable_above_zero _ (by simp only []; omega)]
  rw [run_append, hD, run_uninit _ _ (by simpa using hneg)]
  simp only [Machine.IE, Machine.mtc0]
  exact and_not_one_testBit _

/-- C3, as stated, fails in four ways.  Calls with equal counts that are not
correctly paired need not restore the flag: enable, enable, disable, disable
issued inside a critical section leaves the flag set although it was clear.
Correctly paired calls may write the flag more than twice: disable, enable,
disable, enable at depth 0 writes it four times.  The flag is restored only if
it agreed with the counter to begin with: at depth 0 with the flag clear,
disable, enable leaves it set.  And it is restored only while the counter
stays within `int`: 2147483648 disables followed by 2147483648 enables, issued
at depth 0 with the flag set, end with the flag clear. -/
theorem c3_fails :
    (disabled1.IE = false ∧
      (run [Call.enable, Call.enable, Call.disable, Call.disable] disabled1).IE = true) ∧
    ((run [Call.disable, Call.enable, Call.disable, Call.enable] enabled0).trace =
        enabled0.trace ++
          [Event.mtc0 0x400, Event.mtc0 0x401, Event.mtc0 0x400, Event.mtc0 0x401] ∧
      flagWrites [Event.mtc0 0x400, Event.mtc0 0x401, Event.mtc0 0x400, Event.mtc0 0x401] = 4) ∧
    (({ enabled0 with sr := 0x400 } : Machine).IE = false ∧
      (run [Call.disable, Call.enable] { enabled0 with sr := 0x400 }).IE = true) ∧
    (enabled0.IE = true ∧
      (run (List.replicate 2147483648 Call.disable ++ List.replicate 2147483648 Call.enable)
        enabled0).IE = false) :=
  ⟨by decide, by decide, by decide, by decide,
    run_past_int_max 2147483648 enabled0 (by decide) (by decide)⟩

/-- C3 (amended): started in a state where the flag is set if the depth is 0,
every correctly paired sequence of `disable_interrupts`/`enable_interrupts`
calls that keeps the counter within `int` leaves the interrupt-enable flag in
the state it had before the sequence; and one critical section, that is a
disable, a correctly paired sequence, and the matching enable, writes the flag
at most twice: at most one clear and at most one set, whatever the nesting
inside it. -/
theorem critical_section_touches_flag_twice (m : Machine) :
    ((m.__interrupt_depth = 0 → m.IE = true) →
      ∀ cs : List Call, nested 0 cs → m.__interrupt_depth + peak 0 cs ≤ INT_MAX →
        (run cs m).IE = m.IE) ∧
    (m.__interrupt_depth ≤ INT_MAX → ∀ w : List Call, nested 0 w →
      ∃ evs : List Event,
        (run (Call.disable :: (w ++ [Call.enable])) m).trace = m.trace ++ evs ∧
        flagWrites evs ≤ 2 ∧ flagClears evs ≤ 1 ∧ flagSets evs ≤ 1) := by
  constructor
  · intro hc cs hn hb
    rcases lt_trichotomy m.__interrupt_depth 0 with h | h | h
    · rw [run_uninit cs m h]
    · rw [hc h]
      exact run_nested_outer cs 0 m hn (by simpa using h) (fun _ => hc h)
        (by rw [h] at hb; simpa using hb)
    · rw [run_nested_inside cs 0 m hn (by push_cast; omega) (by simpa using hb)]
      rfl
  · intro hmax w hn
    rcases lt_trichotomy m.__interrupt_depth 0 with h | h | h
    · exact ⟨[], by rw [run_uninit _ m h]; simp, by simp [flagWrites], by simp [flagClears],
        by simp [flagSets]⟩
    · have h1 : wrap_int (0 + 1) = 1 := by decide
      have h2 : wrap_int (1 - 1) = 0 := by decide
      obtain ⟨r1, r2, r3⟩ := run_nested_inside_any w 0
        ({ m.mtc0 (m.sr &&& 0xFFFFFFFE) with __interrupt_depth := 1 }) hn (by simp)
        (by simp only []; decide)
      simp only [Nat.cast_zero, sub_zero, Machine.mtc0] at r1 r2 r3
      have hrun : run (Call.disable :: (w ++ [Call.enable])) m =
          enable_interrupts (run w
            ({ m.mtc0 (m.sr &&& 0xFFFFFFFE) with __interrupt_depth := 1 })) := by
        simp only [run, Call.exec, run_append]
        rw [disable_at_zero m h, h1]
      rw [hrun]
      simp only [Machine.mtc0]
      rcases r3 with r3 | r3
      · refine ⟨[Event.mtc0 (m.sr &&& 0xFFFFFFFE)], ?_, by simp [flagWrites], ?_, ?_⟩
        · rw [enable_uninit _ r3, r2]
        · simp [flagClears, and_not_one_testBit]
        · simp [flagSets, and_not_one_testBit]
      · refine ⟨[Event.mtc0 (m.sr &&& 0xFFFFFFFE), Event.mtc0 ((m.sr &&& 0xFFFFFFFE) ||| 1)],
          ?_, by simp [flagWrites], ?_, ?_⟩
        · rw [enable_trace _ (by rw [r3]; decide), r3, r2, r1, if_pos h2]
          simp
        · simp [flagClears, and_not_one_testBit, or_one_testBit]
        · simp [flagSets, and_not_one_testBit, or_one_testBit]
    · refine ⟨[], ?_, by simp [flagWrites], by simp [flagClears], by simp [flagSets]⟩
      have hrun : run (Call.disable :: (w ++ [Call.enable])) m =
          enable_interrupts (run w
            { m with __interrupt_depth := wrap_int (m.__interrupt_depth + 1) }) := by
        simp only [run, Call.exec, run_append]
        rw [disable_above_zero m h]
      rw [hrun, List.append_nil]
      by_cases hlt : m.__interrupt_depth + 1 ≤ INT_MAX
      · have hw : wrap_int (m.__interrupt_depth + 1) = m.__interrupt_depth + 1 :=
          wrap_int_id _ (by unfold INT_MIN; omega) hlt
        have hw2 : wrap_int (m.__interrupt_depth + 1 - 1) ≠ 0 := by
          rw [wrap_int_id _ (by unfold INT_MIN; omega) (by omega)]; omega
        rw [hw]
        obtain ⟨_, r2, r3⟩ := run_nested_inside_any w 0
          ({ m with __interrupt_depth := m.__interrupt_depth + 1 }) hn
          (by simp only []; push_cast; omega) hlt
        simp only [Nat.cast_zero, sub_zero] at r2 r3
        rcases r3 with r3 | r3
        · rw [enable_uninit _ r3, r2]
        · rw [enable_trace _ (by rw [r3]; omega), r3, r2, if_neg hw2]
          simp
      · have hneg : wrap_int (m.__interrupt_depth + 1) < 0 := by
          unfold INT_MAX at hmax hlt
          unfold wrap_int
          omega
        rw [run_uninit w _ hneg, enable_uninit _ hneg]

/-- Instance of C3 (amended): from the enabled state, two critical sections in
a row restore the flag, and one section with another nested in it writes the
flag at most twice. -/
theorem critical_section_touches_flag_twice_witness :
    (run [Call.disable, Call.enable, Call.disable, Call.enable] enabled0).IE = enabled0.IE ∧
    (∃ evs : List Event,
      (run (Call.disable :: ([Call.disable, Call.enable] ++ [Call.enable])) enabled0).trace
        = enabled0.trace ++ evs ∧
      flagWrites evs ≤ 2 ∧ flagClears evs ≤ 1 ∧ flagSets evs ≤ 1) :=
  ⟨(critical_section_touches_flag_twice enabled0).1 (by decide) _ (by decide) (by decide),
   (critical_section_touches_flag_twice enabled0).2 (by decide) _ (by decide)⟩

/-! ## C4 -/

/-- C4: `get_interrupts_state` changes nothing and its result depends on the
sign of the nesting depth only: negative gives UNINITIALIZED, zero ENABLED,
positive DISABLED.  From the start of the program (depth -1), the results after
nothing, `init_interrupts`, `disable_interrupts`, `enable_interrupts` are
UNINITIALIZED, ENABLED, DISABLED, ENABLED. -/
theorem get_interrupts_state_by_sign (m : Machine) :
    (get_interrupts_state m).2 = m ∧
    (m.__interrupt_depth < 0 →
      (get_interrupts_state m).1 = interrupt_state_t.INTERRUPTS_UNINITIALIZED) ∧
    (m.__interrupt_depth = 0 →
      (get_interrupts_state m).1 = interrupt_state_t.INTERRUPTS_ENABLED) ∧
    (0 < m.__interrupt_depth →
      (get_interrupts_state m).1 = interrupt_state_t.INTERRUPTS_DISABLED) ∧
    (∀ m' : Machine, Int.sign m'.__interrupt_depth = Int.sign m.__interrupt_depth →
      (get_interrupts_state m').1 = (get_interrupts_state m).1) ∧
    (∀ sr intr mask line : Nat,
      (get_interrupts_state (start sr intr mask line)).1
        = interrupt_state_t.INTERRUPTS_UNINITIALIZED ∧
      (get_interrupts_state (init_interrupts (start sr intr mask line))).1
        = interrupt_state_t.INTERRUPTS_ENABLED ∧
      (get_interrupts_state (disable_interrupts (init_interrupts (start sr intr mask line)))).1
        = interrupt_state_t.INTERRUPTS_DISABLED ∧
      (get_interrupts_state (enable_interrupts (disable_interrupts
        (init_interrupts (start sr intr mask line))))).1
        = interrupt_state_t.INTERRUPTS_ENABLED) := by
  have neg : ∀ a : Machine, a.__interrupt_depth < 0 →
      (get_interrupts_state a).1 = interrupt_state_t.INTERRUPTS_UNINITIALIZED := by
    intro a h; simp [get_interrupts_state, h]
  have zero : ∀ a : Machine, a.__interrupt_depth = 0 →
      (get_interrupts_state a).1 = interrupt_state_t.INTERRUPTS_ENABLED := by
    intro a h; simp [get_interrupts_state, h]
  have pos : ∀ a : Machine, 0 < a.__interrupt_depth →
      (get_interrupts_state a).1 = interrupt_state_t.INTERRUPTS_DISABLED := by
    intro a h
    have h1 : ¬ a.__interrupt_depth < 0 := by omega
    have h2 : ¬ a.__interrupt_depth = 0 := by omega
    simp [get_interrupts_state, h1, h2]
  refine ⟨?_, neg m, zero m, pos m, ?_, ?_⟩
  · unfold get_interrupts_state
    split
    · rfl
    · split <;> rfl
  · intro m' hs
    rcases lt_trichotomy m.__interrupt_depth 0 with h | h | h
    · rw [Int.sign_eq_neg_one_of_neg h] at hs
      rw [neg m h, neg m' (Int.sign_eq_neg_one_iff_neg.mp hs)]
    · rw [h, Int.sign_zero] at hs
      rw [zero m h, zero m' (Int.sign_eq_zero_iff_zero.mp hs)]
    · rw [Int.sign_eq_one_of_pos h] at hs
      rw [pos m h, pos m' (Int.sign_eq_one_iff_pos.mp hs)]
  · intro sr intr mask line
    have hi : (init_interrupts (start sr intr mask line)).__interrupt_depth = 0 := by
      simp [init_interrupts, start, Machine.mtc0, Machine.store]
    have hd : (disable_interrupts (init_interrupts (start sr intr mask line))).__interrupt_depth
        = 1 := by
      rw [disable_depth _ (by omega) (by rw [hi]; decide), hi]; rfl
    have he : (enable_interrupts (disable_interrupts
        (init_interrupts (start sr intr mask line)))).__interrupt_depth = 0 := by
      rw [enable_depth _ (by omega) (by rw [hd]; decide), hd]; rfl
    exact ⟨neg _ (by simp [start]), zero _ hi, pos _ (by omega), zero _ he⟩

/-- Instance of C4: the result at the start, when enabled, inside a critical
section, and at two different positive depths. -/
theorem get_interrupts_state_by_sign_witness :
    (get_interrupts_state (start 0 0 0 0)).1 = interrupt_state_t.INTERRUPTS_UNINITIALIZED ∧
    (get_interrupts_state enabled0).1 = interrupt_state_t.INTERRUPTS_ENABLED ∧
    (get_interrupts_state disabled1).1 = interrupt_state_t.INTERRUPTS_DISABLED ∧
    (get_interrupts_state deepest).1 = (get_interrupts_state disabled1).1 :=
  ⟨(get_interrupts_state_by_sign (start 0 0 0 0)).2.1 (by decide),
   (get_interrupts_state_by_sign enabled0).2.2.1 (by decide),
   (get_interrupts_state_by_sign disabled1).2.2.2.1 (by decide),
   (get_interrupts_state_by_sign disabled1).2.2.2.2.1 deepest (by decide)⟩

/-! ## Facts about the callback lists -/

theorem load_assign (m : Machine) (head : Head) (l : List callback_link) :
    (m.assign head l).load head = l := by
  cases head <;> rfl

theorem assign_load (m : Machine) (head : Head) : m.assign head (m.load head) = m := by
  cases head <;> rfl

theorem assign_trace (m : Machine) (head : Head) (l : List callback_link) :
    (m.assign head l).trace = m.trace := by
  cases head <;> rfl

/-- The dispatch loop changes the trace only, adding one call per node with a
non-null callback, in list order. -/
theorem call_callback_frame (l : List callback_link) : ∀ m : Machine,
    __call_callback l m = { m with trace := m.trace ++ invoked l } := by
  induction l with
  | nil => intro m; simp [__call_callback, invoked]
  | cons n l ih =>
    intro m
    by_cases hn : n.callback = 0
    · simp only [__call_callback, hn, ne_eq, not_true_eq_false, if_false]
      rw [ih]
      simp [invoked, hn]
    · simp only [__call_callback, hn, ne_eq, not_false_eq_true, if_true]
      rw [ih]
      simp [invoked, hn, Machine.invoke] at *

theorem call_callback_trace (l : List callback_link) (m : Machine) :
    (__call_callback l m).trace = m.trace ++ invoked l := by
  rw [call_callback_frame]

theorem unregister_loop_no_match (c : Nat) (l : List callback_link) :
    ∀ passed : List callback_link, (∀ y ∈ l, y.callback ≠ c) →
      unregister_loop c passed l = passed ++ l := by
  induction l with
  | nil => intro passed _; simp [unregister_loop]
  | cons n l ih =>
    intro passed h
    have hn : n.callback ≠ c := h n (List.mem_cons_self _ _)
    simp only [unregister_loop, hn, if_false]
    rw [ih _ (fun y hy => h y (List.mem_cons_of_mem _ hy))]
    simp

theorem unregister_loop_first_match (c : Nat) (pre : List callback_link) :
    ∀ (passed : List callback_link) (x : callback_link) (post : List callback_link),
      x.callback = c → (∀ y ∈ pre, y.callback ≠ c) →
      unregister_loop c passed (pre ++ x :: post) = passed ++ pre ++ post := by
  induction pre with
  | nil => intro passed x post hx _; simp [unregister_loop, hx]
  | cons n pre ih =>
    intro passed x post hx h
    have hn : n.callback ≠ c := h n (List.mem_cons_self _ _)
    rw [List.cons_append]
    simp only [unregister_loop, hn, if_false]
    rw [ih _ x post hx (fun y hy => h y (List.mem_cons_of_mem _ hy))]
    simp

/-! ## C5 -/

/-- C5: a successful `__register_callback` (non-null head, node allocated) puts
the callback in front of the previous content of the list, which keeps its
order; so after registering `A` and then `B` (both callable, that is non-null)
a dispatch over the list calls `B`, then `A`, then whatever a dispatch over the
previous content calls. -/
theorem register_inserts_at_front (m : Machine) (head : Head) :
    (∀ c : Nat, (__register_callback (some head) c true m).load head
        = { callback := c } :: m.load head) ∧
    (∀ A B : Nat, A ≠ 0 → B ≠ 0 → ∃ rest : List Event,
      (__call_callback (m.load head) m).trace = m.trace ++ rest ∧
      (__call_callback
          ((__register_callback (some head) B true
            (__register_callback (some head) A true m)).load head)
          (__register_callback (some head) B true
            (__register_callback (some head) A true m))).trace
        = m.trace ++ Event.call B :: Event.call A :: rest) := by
  constructor
  · intro c
    simp [__register_callback, load_assign]
  · intro A B hA hB
    refine ⟨invoked (m.load head), call_callback_trace _ _, ?_⟩
    rw [call_callback_trace]
    simp [__register_callback, load_assign, assign_trace, invoked, hA, hB]

/-- Instance of C5: 3 and then 4 registered for PI are called as 4, 3, and
then the callbacks registered before. -/
theorem register_inserts_at_front_witness :
    ∃ rest : List Event,
      (__call_callback (sample.load Head.PI_callback) sample).trace = sample.trace ++ rest ∧
      (__call_callback
          ((__register_callback (some Head.PI_callback) 4 true
            (__register_callback (some Head.PI_callback) 3 true sample)).load Head.PI_callback)
          (__register_callback (some Head.PI_callback) 4 true
            (__register_callback (some Head.PI_callback) 3 true sample))).trace
        = sample.trace ++ Event.call 4 :: Event.call 3 :: rest :=
  (register_inserts_at_front sample Head.PI_callback).2 3 4 (by decide) (by decide)

/-! ## C6 -/

/-- C6: `__unregister_callback` removes from the list the first node whose
callback equals the one given and keeps every other node in its place: when the
list is `pre ++ x :: post` with `x` the first match, it becomes `pre ++ post`,
so a later node with the same callback stays.  When no node matches, and in
particular when the list is empty, the machine is left exactly as it was; the
function returns nothing, so no error is signalled. -/
theorem unregister_removes_first_match (m : Machine) (head : Head) (c : Nat) :
    (∀ (pre : List callback_link) (x : callback_link) (post : List callback_link),
      m.load head = pre ++ x :: post → x.callback = c → (∀ y ∈ pre, y.callback ≠ c) →
      (__unregister_callback (some head) c m).load head = pre ++ post) ∧
    ((∀ y ∈ m.load head, y.callback ≠ c) → __unregister_callback (some head) c m = m) ∧
    (m.load head = [] → __unregister_callback (some head) c m = m) := by
  have none_match : (∀ y ∈ m.load head, y.callback ≠ c) →
      __unregister_callback (some head) c m = m := by
    intro h
    simp only [__unregister_callback]
    rw [unregister_loop_no_match c _ [] h]
    simpa using assign_load m head
  refine ⟨?_, none_match, ?_⟩
  · intro pre x post hl hx hpre
    simp only [__unregister_callback, load_assign]
    rw [hl, unregister_loop_first_match c pre [] x post hx hpre]
    simp
  · intro hl
    apply none_match
    rw [hl]
    intro y hy
    cases hy

/-- Instance of C6 on the list 7, 9, 7: removing 7 leaves 9, 7; removing 9
leaves 7, 7; removing 8, or anything from an empty list, changes nothing. -/
theorem unregister_removes_first_match_witness :
    (__unregister_callback (some Head.AI_callback) 7 sample).load Head.AI_callback
        = [] ++ [⟨9⟩, ⟨7⟩] ∧
    (__unregister_callback (some Head.AI_callback) 9 sample).load Head.AI_callback
        = [⟨7⟩] ++ [⟨7⟩] ∧
    __unregister_callback (some Head.AI_callback) 8 sample = sample ∧
    __unregister_callback (some Head.VI_callback) 7 sample = sample :=
  ⟨(unregister_removes_first_match sample Head.AI_callback 7).1 [] ⟨7⟩ [⟨9⟩, ⟨7⟩] rfl rfl
      (by decide),
   (unregister_removes_first_match sample Head.AI_callback 9).1 [⟨7⟩] ⟨9⟩ [⟨7⟩] rfl rfl
      (by decide),
   (unregister_removes_first_match sample Head.AI_callback 8).2.1 (by decide),
   (unregister_removes_first_match sample Head.VI_callback 7).2.2 rfl⟩

/-! ## C7 -/

/-- C7 (defect of the code): when the allocator returns the null pointer,
`__register_callback` has already stored it into the head, before its null
test, so the list is lost instead of being left unchanged, and the function,
which returns nothing, gives no sign of the failure.  With 7, 9 and 7
registered for AI, a dispatch calls 7, 9, 7; after a registration of 3 that
fails to allocate, the list is empty and a dispatch calls nothing.  The same
happens for every list, head and callback. -/
theorem register_failure_loses_list :
    sample.load Head.AI_callback = [⟨7⟩, ⟨9⟩, ⟨7⟩] ∧
    (__call_callback (sample.load Head.AI_callback) sample).trace
      = [Event.call 7, Event.call 9, Event.call 7] ∧
    (__register_callback (some Head.AI_callback) 3 false sample).load Head.AI_callback = [] ∧
    (__register_callback (some Head.AI_callback) 3 false sample).load Head.AI_callback
      ≠ sample.load Head.AI_callback ∧
    (__call_callback
        ((__register_callback (some Head.AI_callback) 3 false sample).load Head.AI_callback)
        (__register_callback (some Head.AI_callback) 3 false sample)).trace = [] ∧
    (__register_callback (some Head.AI_callback) 3 false sample).trace = sample.trace ∧
    (∀ (m : Machine) (head : Head) (c : Nat),
      (__register_callback (some head) c false m).load head = []) := by
  refine ⟨by decide, by decide, by decide, by decide, by decide, by decide, ?_⟩
  intro m head c
  simp [__register_callback, load_assign]

/-! ## Facts about the dispatch -/

/-- What one invocation of the handler adds to the trace: for AI, VI, PI and
DP in this order, nothing when the source is not active, else its
acknowledgment followed by the calls of its list. -/
theorem MI_handler_trace (m : Machine) :
    (__MI_handler m).trace =
      m.trace ++ (Source.AI.service m ++ Source.VI.service m ++ Source.PI.service m ++
        Source.DP.service m) := by
  simp only [__MI_handler, call_callback_frame, Source.service, Source.active, Source.bit,
    Source.ack, Source.registry, Machine.store, ite_self, decide_eq_true_eq]
  split_ifs <;> simp

theorem count_write_invoked (l : List callback_link) (r : Reg) (v : Nat) :
    (invoked l).count (Event.write r v) = 0 := by
  rw [List.count_eq_zero]
  simp [invoked]

theorem count_ack_service (m : Machine) (x z : Source) :
    (z.service m).count (x.ack m) = if z = x ∧ x.active m then 1 else 0 := by
  by_cases hz : z.active m
  · cases x <;> cases z <;>
      simp [Source.service, hz, Source.ack, Source.registry, count_write_invoked,
        List.count_cons, PI_CLEAR_INTERRUPT]
  · cases x <;> cases z <;> simp [Source.service, hz]

theorem ack_not_mem_service (m : Machine) (x z : Source) (h : z ≠ x) :
    x.ack m ∉ z.service m := by
  have hc := count_ack_service m x z
  rw [if_neg (fun hh => h hh.1)] at hc
  exact List.count_eq_zero.mp hc

/-! ## C8 -/

/-- C8: for every pair of values of the MI interrupt and mask registers, what
`__MI_handler` adds to the trace is, for AI, VI, PI and DP in turn, the
acknowledgment write of the source followed by the calls of its list when the
bit of the source is set in `intr & mask`, and nothing when it is not; the
acknowledgment write of a source occurs once when the source is active and not
at all otherwise.  With AI and PI pending and AI alone unmasked, the handler
writes the AI acknowledgment once, calls the AI callbacks, and does nothing
else. -/
theorem MI_handler_services_active_sources (m : Machine) :
    ((__MI_handler m).trace =
      m.trace ++ (Source.AI.service m ++ Source.VI.service m ++ Source.PI.service m ++
        Source.DP.service m)) ∧
    (∀ x : Source,
      (Source.AI.service m ++ Source.VI.service m ++ Source.PI.service m ++
        Source.DP.service m).count (x.ack m) = if x.active m then 1 else 0) ∧
    (∀ x : Source, (__call_callback (x.registry m) m).trace = m.trace ++ invoked (x.registry m)) ∧
    (m.MI_intr = MI_INTR_AI ||| MI_INTR_PI → m.MI_mask = MI_MASK_AI →
      (__MI_handler m).trace = m.trace ++ Event.write Reg.AI_status 0 :: invoked m.AI_callback) := by
  refine ⟨MI_handler_trace m, ?_, fun x => call_callback_trace _ m, ?_⟩
  · intro x
    simp only [List.count_append, count_ack_service]
    cases x <;> simp
  · intro hi hm
    rw [MI_handler_trace]
    have hAI : Source.AI.active m = true := by
      simp [Source.active, Source.bit, hi, hm, MI_MASK_AI, MI_INTR_AI, MI_INTR_PI]
    have hVI : Source.VI.active m = false := by
      simp [Source.active, Source.bit, hi, hm, MI_MASK_AI, MI_INTR_AI, MI_INTR_PI, MI_INTR_VI]
      decide
    have hPI : Source.PI.active m = false := by
      simp [Source.active, Source.bit, hi, hm, MI_MASK_AI, MI_INTR_AI, MI_INTR_PI]
      decide
    have hDP : Source.DP.active m = false := by
      simp [Source.active, Source.bit, hi, hm, MI_MASK_AI, MI_INTR_AI, MI_INTR_PI, MI_INTR_DP]
      decide
    simp [Source.service, hAI, hVI, hPI, hDP, Source.ack, Source.registry]

/-- Instance of C8: with AI and PI pending and AI alone unmasked, the handler
acknowledges AI once and calls the AI callbacks only. -/
theorem MI_handler_services_active_sources_witness :
    (__MI_handler sample).trace
      = sample.trace ++ Event.write Reg.AI_status 0 :: invoked sample.AI_callback :=
  (MI_handler_services_active_sources sample).2.2.2 (by decide) (by decide)

/-! ## C9 -/

theorem write_not_mem_invoked (l : List callback_link) (r : Reg) (v : Nat) :
    Event.write r v ∉ invoked l := by
  simp [invoked]

/-- C9: within one invocation of `__MI_handler` the active sources are serviced
in the order AI, VI, PI, DP, which is the ascending order of their bits.  What
the handler adds to the trace is exactly, for the active sources in that
order, the acknowledgment of the source followed at once by the calls of its
list, and nothing else; this holds also when one source alone is active.  For
two active sources `x` and `y` with the bit of `x` below the bit of `y`, the
events are therefore: the blocks of the active sources before `x`, the
acknowledgment of `x` and the calls of its list, the blocks of the active
sources between `x` and `y`, the acknowledgment of `y` and the calls of its
list, the blocks of the active sources after `y`; and the acknowledgment of
`y` does not occur anywhere before its place, nor that of `x` before its
own. -/
theorem MI_handler_fixed_order (m : Machine) :
    (Source.order.map Source.bit = [MI_INTR_AI, MI_INTR_VI, MI_INTR_PI, MI_INTR_DP] ∧
      List.Pairwise (fun a b => a < b) (Source.order.map Source.bit)) ∧
    ((__MI_handler m).trace =
      m.trace ++ blocks m (Source.order.filter (fun z => z.active m))) ∧
    (∀ x y : Source, x.bit < y.bit → x.active m = true → y.active m = true →
      (__MI_handler m).trace =
        m.trace ++
          (blocks m (Source.order.filter (fun z => z.active m && decide (z.bit < x.bit))) ++
            x.ack m :: invoked (x.registry m) ++
            blocks m (Source.order.filter
              (fun z => z.active m && decide (x.bit < z.bit) && decide (z.bit < y.bit))) ++
            y.ack m :: invoked (y.registry m) ++
            blocks m (Source.order.filter (fun z => z.active m && decide (y.bit < z.bit)))) ∧
      x.ack m ∉ blocks m (Source.order.filter (fun z => z.active m && decide (z.bit < x.bit))) ∧
      y.ack m ∉
        blocks m (Source.order.filter (fun z => z.active m && decide (z.bit < x.bit))) ++
          x.ack m :: invoked (x.registry m) ++
          blocks m (Source.order.filter
            (fun z => z.active m && decide (x.bit < z.bit) && decide (z.bit < y.bit)))) := by
  refine ⟨⟨by decide, by decide⟩, ?_, ?_⟩
  · rw [MI_handler_trace]
    cases hA : Source.AI.active m <;> cases hV : Source.VI.active m <;>
      cases hP : Source.PI.active m <;> cases hD : Source.DP.active m <;>
      simp [Source.order, List.filter, blocks, Source.service, hA, hV, hP, hD]
  · intro x y hxy hx hy
    rw [MI_handler_trace]
    cases x <;> cases y <;>
      first
      | exact absurd hxy (by decide)
      | (cases hA : Source.AI.active m <;> cases hV : Source.VI.active m <;>
          cases hP : Source.PI.active m <;> cases hD : Source.DP.active m <;>
          first
          | (rw [hA] at hx; exact absurd hx (by decide))
          | (rw [hV] at hx; exact absurd hx (by decide))
          | (rw [hP] at hx; exact absurd hx (by decide))
          | (rw [hV] at hy; exact absurd hy (by decide))
          | (rw [hP] at hy; exact absurd hy (by decide))
          | (rw [hD] at hy; exact absurd hy (by decide))
          | simp [Source.order, List.filter, blocks, Source.service, hA, hV, hP, hD,
              Source.bit, Source.ack, Source.registry, MI_INTR_AI, MI_INTR_VI, MI_INTR_PI,
              MI_INTR_DP, PI_CLEAR_INTERRUPT, write_not_mem_invoked])

/-- Instance of C9: with all four sources active, the events are the block
of AI, the block of VI, the block of PI and the block of DP, the block of VI
standing between those of AI and PI; with AI alone active the events are the
block of AI. -/
theorem MI_handler_fixed_order_witness :
    ((__MI_handler crowded).trace =
        crowded.trace ++
          (blocks crowded (Source.order.filter
              (fun z => z.active crowded && decide (z.bit < Source.AI.bit))) ++
            Source.AI.ack crowded :: invoked (Source.AI.registry crowded) ++
            blocks crowded (Source.order.filter
              (fun z => z.active crowded && decide (Source.AI.bit < z.bit) &&
                decide (z.bit < Source.PI.bit))) ++
            Source.PI.ack crowded :: invoked (Source.PI.registry crowded) ++
            blocks crowded (Source.order.filter
              (fun z => z.active crowded && decide (Source.PI.bit < z.bit)))) ∧
      Source.AI.ack crowded ∉
        blocks crowded (Source.order.filter
          (fun z => z.active crowded && decide (z.bit < Source.AI.bit))) ∧
      Source.PI.ack crowded ∉
        blocks crowded (Source.order.filter
            (fun z => z.active crowded && decide (z.bit < Source.AI.bit))) ++
          Source.AI.ack crowded :: invoked (Source.AI.registry crowded) ++
          blocks crowded (Source.order.filter
            (fun z => z.active crowded && decide (Source.AI.bit < z.bit) &&
              decide (z.bit < Source.PI.bit)))) ∧
    (__MI_handler crowded).trace =
      crowded.trace ++ blocks crowded [Source.AI, Source.VI, Source.PI, Source.DP] ∧
    (__MI_handler busy).trace = busy.trace ++ blocks busy [Source.AI, Source.PI] ∧
    (__MI_handler sample).trace = sample.trace ++ blocks sample [Source.AI] :=
  ⟨(MI_handler_fixed_order crowded).2.2 Source.AI Source.PI (by decide) (by decide) (by decide),
   (MI_handler_fixed_order crowded).2.1,
   (MI_handler_fixed_order busy).2.1,
   (MI_handler_fixed_order sample).2.1⟩

/-! ## C10 -/

/-- C10, as stated, fails: `set_VI_interrupt` with a non-zero `active` stores
the set-VI-mask command to the MI mask register first and the line to `v_int`
second, so the write of the line comes later than the arming of the mask. -/
theorem c10_fails :
    (set_VI_interrupt 1 5 (start 0 0 0 0)).trace
      = [Event.write Reg.MI_mask MI_MASK_SET_VI, Event.write Reg.VI_v_int 5] ∧
    List.indexOf (Event.write Reg.MI_mask MI_MASK_SET_VI) (set_VI_interrupt 1 5 (start 0 0 0 0)).trace
      < List.indexOf (Event.write Reg.VI_v_int 5) (set_VI_interrupt 1 5 (start 0 0 0 0)).trace := by
  decide

/-- C10 (amended): for every line value `L`, `set_VI_interrupt` with a non-zero
`active` performs exactly two register writes, the set-VI-mask command to the
MI mask register and then `L` to `v_int`; `v_int` holds `L` when the call
returns, the mask bit having been armed just before. -/
theorem set_VI_interrupt_writes_mask_then_line (active : Int) (L : Nat) (m : Machine)
    (h : active ≠ 0) :
    (set_VI_interrupt active L m).trace =
      m.trace ++ [Event.write Reg.MI_mask MI_MASK_SET_VI, Event.write Reg.VI_v_int L] := by
  simp [set_VI_interrupt, h, Machine.store]

/-- Instance of C10 (amended): activating the VI interrupt for line 200. -/
theorem set_VI_interrupt_writes_mask_then_line_witness :
    (set_VI_interrupt 1 200 sample).trace =
      sample.trace ++ [Event.write Reg.MI_mask MI_MASK_SET_VI, Event.write Reg.VI_v_int 200] :=
  set_VI_interrupt_writes_mask_then_line 1 200 sample (by decide)

/-! ## C11 -/

/-- C11: `init_interrupts` called in an initialized state (depth 0 or more,
whatever the depth and the flag) returns the machine as it was: no register
write, same depth, same Status register.  Hence, from any state, calling it
twice is the same as calling it once. -/
theorem init_interrupts_idempotent (m : Machine) :
    (0 ≤ m.__interrupt_depth → init_interrupts m = m) ∧
    init_interrupts (init_interrupts m) = init_interrupts m := by
  have h1 : ∀ a : Machine, 0 ≤ a.__interrupt_depth → init_interrupts a = a := by
    intro a ha
    unfold init_interrupts
    rw [if_neg (by omega)]
  refine ⟨h1 m, ?_⟩
  by_cases h : m.__interrupt_depth < 0
  · apply h1
    simp [init_interrupts, h, Machine.mtc0, Machine.store]
  · simp only [h1 m (by omega)]

/-- Instance of C11: inside a critical section and with the counter at its
largest value, `init_interrupts` changes nothing. -/
theorem init_interrupts_idempotent_witness :
    init_interrupts disabled1 = disabled1 ∧ init_interrupts deepest = deepest :=
  ⟨(init_interrupts_idempotent disabled1).1 (by decide),
   (init_interrupts_idempotent deepest).1 (by decide)⟩

/-! ## C12 -/

/-- C12: in an uninitialized state (depth below 0) `disable_interrupts` and
`enable_interrupts` return the machine as it was, so the depth, the Status
register and the trace are unchanged, and `get_interrupts_state` still returns
UNINITIALIZED afterwards. -/
theorem uninitialized_calls_are_noops (m : Machine) (h : m.__interrupt_depth < 0) :
    disable_interrupts m = m ∧ enable_interrupts m = m ∧
    (get_interrupts_state (disable_interrupts m)).1
      = interrupt_state_t.INTERRUPTS_UNINITIALIZED ∧
    (get_interrupts_state (enable_interrupts m)).1
      = interrupt_state_t.INTERRUPTS_UNINITIALIZED := by
  rw [disable_uninit m h, enable_uninit m h]
  simp [get_interrupts_state, h]

/-- Instance of C12: at the start of the program. -/
theorem uninitialized_calls_are_noops_witness :
    disable_interrupts (start 1 0 0 0) = start 1 0 0 0 ∧
    enable_interrupts (start 1 0 0 0) = start 1 0 0 0 ∧
    (get_interrupts_state (disable_interrupts (start 1 0 0 0))).1
      = interrupt_state_t.INTERRUPTS_UNINITIALIZED ∧
    (get_interrupts_state (enable_interrupts (start 1 0 0 0))).1
      = interrupt_state_t.INTERRUPTS_UNINITIALIZED :=
  uninitialized_calls_are_noops (start 1 0 0 0) (by decide)

/-! ## C13 -/

theorem disable_depth_wrap (m : Machine) (h0 : 0 ≤ m.__interrupt_depth) :
    (disable_interrupts m).__interrupt_depth = wrap_int (m.__interrupt_depth + 1) := by
  by_cases hz : m.__interrupt_depth = 0
  · rw [disable_at_zero m hz, hz]
  · rw [disable_above_zero m (by omega)]

/-- Disables issued in an uninitialized state, or in such number that the
counter leaves the range of `int`, end with a negative counter. -/
theorem run_disables_neg (n : Nat) : ∀ m : Machine, m.__interrupt_depth ≤ INT_MAX →
    (m.__interrupt_depth < 0 ∨ INT_MAX < m.__interrupt_depth + n) →
    (run (List.replicate n Call.disable) m).__interrupt_depth < 0 := by
  induction n with
  | zero =>
    intro m hmax h
    rcases h with h | h
    · simpa [run] using h
    · exact absurd hmax (by push_cast at h; omega)
  | succ n ih =>
    intro m hmax h
    rw [List.replicate_succ]
    simp only [run, Call.exec]
    by_cases hneg : m.__interrupt_depth < 0
    · rw [disable_uninit m hneg]
      exact ih m hmax (Or.inl hneg)
    · have hd := disable_depth_wrap m (by omega)
      by_cases hlt : m.__interrupt_depth + 1 ≤ INT_MAX
      · have hw : wrap_int (m.__interrupt_depth + 1) = m.__interrupt_depth + 1 :=
          wrap_int_id _ (by unfold INT_MIN; omega) hlt
        apply ih _ (by rw [hd, hw]; exact hlt)
        right
        rw [hd, hw]
        rcases h with h | h
        · exact absurd h hneg
        · push_cast at h; omega
      · have hw : wrap_int (m.__interrupt_depth + 1) < 0 := by
          unfold INT_MAX at hmax hlt
          unfold wrap_int
          omega
        apply ih _ (by rw [hd]; unfold INT_MAX; omega)
        left
        rw [hd]
        exact hw

/-- More enables than the counter holds end with a negative counter. -/
theorem run_enables_past (k : Nat) : ∀ m : Machine, m.__interrupt_depth < k →
    m.__interrupt_depth ≤ INT_MAX →
    (run (List.replicate k Call.enable) m).__interrupt_depth < 0 := by
  induction k with
  | zero => intro m h _; simpa [run] using h
  | succ k ih =>
    intro m h hmax
    rw [List.replicate_succ]
    simp only [run, Call.exec]
    by_cases hneg : m.__interrupt_depth < 0
    · rw [enable_uninit m hneg, run_uninit _ m hneg]
      exact hneg
    · have hd := enable_depth m (by omega) hmax
      exact ih _ (by rw [hd]; push_cast at h; omega) (by rw [hd]; omega)

/-- C13: from the state `init_interrupts` leaves at the start (depth 0), `n`
calls of `disable_interrupts` followed by `n + 1` calls of `enable_interrupts`
end, for every `n`, with a negative depth, and `get_interrupts_state` then
returns UNINITIALIZED. -/
theorem extra_enable_uninitializes (m : Machine) (n : Nat) (h : m.__interrupt_depth ≤ 0) :
    (run (List.replicate n Call.disable ++ List.replicate (n + 1) Call.enable)
      (init_interrupts m)).__interrupt_depth < 0 ∧
    (get_interrupts_state
      (run (List.replicate n Call.disable ++ List.replicate (n + 1) Call.enable)
        (init_interrupts m))).1 = interrupt_state_t.INTERRUPTS_UNINITIALIZED := by
  have hi : (init_interrupts m).__interrupt_depth = 0 := by
    by_cases hneg : m.__interrupt_depth < 0
    · simp [init_interrupts, hneg, Machine.mtc0, Machine.store]
    · have : init_interrupts m = m := by
        unfold init_interrupts
        rw [if_neg hneg]
      rw [this]
      omega
  have hneg : (run (List.replicate n Call.disable ++ List.replicate (n + 1) Call.enable)
      (init_interrupts m)).__interrupt_depth < 0 := by
    rw [run_append]
    by_cases hn : (n : Int) ≤ INT_MAX
    · have hd := run_disables n (init_interrupts m) (by omega) (by rw [hi]; omega)
      exact run_enables_past (n + 1) _ (by rw [hd, hi]; push_cast; omega)
        (by rw [hd, hi]; omega)
    · have hd := run_disables_neg n (init_interrupts m) (by rw [hi]; decide)
        (Or.inr (by rw [hi]; omega))
      rw [run_uninit _ _ hd]
      exact hd
  exact ⟨hneg, by simp [get_interrupts_state, hneg]⟩

/-- Instance of C13: after init, two disables and three enables, and after
init and one enable alone. -/
theorem extra_enable_uninitializes_witness :
    ((run (List.replicate 2 Call.disable ++ List.replicate (2 + 1) Call.enable)
      (init_interrupts (start 0 0 0 0))).__interrupt_depth < 0 ∧
    (get_interrupts_state
      (run (List.replicate 2 Call.disable ++ List.replicate (2 + 1) Call.enable)
        (init_interrupts (start 0 0 0 0)))).1 = interrupt_state_t.INTERRUPTS_UNINITIALIZED) ∧
    ((run (List.replicate 0 Call.disable ++ List.replicate (0 + 1) Call.enable)
      (init_interrupts (start 0 0 0 0))).__interrupt_depth < 0 ∧
    (get_interrupts_state
      (run (List.replicate 0 Call.disable ++ List.replicate (0 + 1) Call.enable)
        (init_interrupts (start 0 0 0 0)))).1 = interrupt_state_t.INTERRUPTS_UNINITIALIZED) :=
  ⟨extra_enable_uninitializes (start 0 0 0 0) 2 (by decide),
   extra_enable_uninitializes (start 0 0 0 0) 0 (by decide)⟩

/-! ## C14 -/

/-- C14, as stated, fails: `enable_interrupts` called at depth 0 is not a
no-op.  In the state `init_interrupts` leaves, the depth is 0 and the query
returns ENABLED; after one `enable_interrupts` the depth is -1 and the query
returns UNINITIALIZED. -/
theorem c14_fails :
    enabled0.__interrupt_depth = 0 ∧
    (get_interrupts_state enabled0).1 = interrupt_state_t.INTERRUPTS_ENABLED ∧
    (enable_interrupts enabled0).__interrupt_depth = -1 ∧
    (get_interrupts_state (enable_interrupts enabled0)).1
      = interrupt_state_t.INTERRUPTS_UNINITIALIZED := by
  decide

/-- C14 (amended): `enable_interrupts` called without a matching prior
`disable_interrupts` (initialized, depth 0) performs no register write and
leaves the CPU interrupt-enable flag as it was, but it sets the nesting depth
to -1: `get_interrupts_state` returns UNINITIALIZED afterwards, and later calls
of `disable_interrupts` and `enable_interrupts` do nothing. -/
theorem unmatched_enable_uninitializes (m : Machine) (h : m.__interrupt_depth = 0) :
    enable_interrupts m = { m with __interrupt_depth := -1 } ∧
    (enable_interrupts m).IE = m.IE ∧
    (enable_interrupts m).trace = m.trace ∧
    (get_interrupts_state (enable_interrupts m)).1
      = interrupt_state_t.INTERRUPTS_UNINITIALIZED ∧
    disable_interrupts (enable_interrupts m) = enable_interrupts m ∧
    enable_interrupts (enable_interrupts m) = enable_interrupts m := by
  have hw : wrap_int (m.__interrupt_depth - 1) = -1 := by rw [h]; decide
  have he : enable_interrupts m = { m with __interrupt_depth := -1 } := by
    rw [enable_not_to_zero m (by omega) (by rw [hw]; decide), hw]
  have hneg : (enable_interrupts m).__interrupt_depth < 0 := by rw [he]; simp
  refine ⟨he, by rw [he]; rfl, by rw [he], by simp [get_interrupts_state, hneg],
    disable_uninit _ hneg, enable_uninit _ hneg⟩

/-- Instance of C14 (amended): in the state `init_interrupts` leaves. -/
theorem unmatched_enable_uninitializes_witness :
    enable_interrupts enabled0 = { enabled0 with __interrupt_depth := -1 } ∧
    (enable_interrupts enabled0).IE = enabled0.IE ∧
    (enable_interrupts enabled0).trace = enabled0.trace ∧
    (get_interrupts_state (enable_interrupts enabled0)).1
      = interrupt_state_t.INTERRUPTS_UNINITIALIZED ∧
    disable_interrupts (enable_interrupts enabled0) = enable_interrupts enabled0 ∧
    enable_interrupts (enable_interrupts enabled0) = enable_interrupts enabled0 :=
  unmatched_enable_uninitializes enabled0 (by decide)

/-! ## C15 -/

/-- C15, as stated, fails: `disable_interrupts` called when interrupts are
already disabled changes the nesting depth.  Inside one critical section the
depth is 1, and after another `disable_interrupts` it is 2. -/
theorem c15_fails :
    disabled1.__interrupt_depth = 1 ∧
    (disable_interrupts disabled1).__interrupt_depth = 2 ∧
    (disable_interrupts disabled1).__interrupt_depth ≠ disabled1.__interrupt_depth := by
  decide

/-- C15 (amended): `disable_interrupts` called when interrupts are already
disabled (depth above 0) performs no register write and leaves the CPU
interrupt-enable flag as it was, but increases the nesting depth by one (as
long as the depth is below `INT_MAX`), which is how the nesting level is
remembered; called when the interrupt system has not been initialized (depth
below 0) it changes nothing. -/
theorem nested_disable_only_counts (m : Machine) :
    (m.__interrupt_depth < 0 → disable_interrupts m = m) ∧
    (0 < m.__interrupt_depth →
      (disable_interrupts m).sr = m.sr ∧ (disable_interrupts m).IE = m.IE ∧
      (disable_interrupts m).trace = m.trace ∧
      (disable_interrupts m).__interrupt_depth = wrap_int (m.__interrupt_depth + 1)) ∧
    (0 < m.__interrupt_depth → m.__interrupt_depth < INT_MAX →
      (disable_interrupts m).__interrupt_depth = m.__interrupt_depth + 1) := by
  refine ⟨disable_uninit m, ?_, ?_⟩
  · intro h
    rw [disable_above_zero m h]
    exact ⟨rfl, rfl, rfl, rfl⟩
  · intro h hlt
    exact disable_depth m (by omega) (by omega)

/-- Instance of C15 (amended): at the start of the program nothing changes;
inside a critical section only the depth does, from 1 to 2. -/
theorem nested_disable_only_counts_witness :
    disable_interrupts (start 1 0 0 0) = start 1 0 0 0 ∧
    ((disable_interrupts disabled1).sr = disabled1.sr ∧
      (disable_interrupts disabled1).IE = disabled1.IE ∧
      (disable_interrupts disabled1).trace = disabled1.trace ∧
      (disable_interrupts disabled1).__interrupt_depth
        = wrap_int (disabled1.__interrupt_depth + 1)) ∧
    (disable_interrupts disabled1).__interrupt_depth = disabled1.__interrupt_depth + 1 :=
  ⟨(nested_disable_only_counts (start 1 0 0 0)).1 (by decide),
   (nested_disable_only_counts disabled1).2.1 (by decide),
   (nested_disable_only_counts disabled1).2.2 (by decide) (by decide)⟩

/-! ## C16 -/

/-- C16: called in an uninitialized state (depth below 0), `init_interrupts`
makes one store to the MI mask register and then one `mtc0`.  The value
stored is 0x555, which contains the clear command of each of SP, SI, AI, VI,
PI and DP and no set command.  The depth is 0 afterwards, and bit 0 of the
Status register is set whatever the register held before. -/
theorem init_interrupts_first_call (m : Machine) (h : m.__interrupt_depth < 0) :
    (init_interrupts m).trace =
      m.trace ++ [Event.write Reg.MI_mask 0x555, Event.mtc0 (m.sr ||| 0x401)] ∧
    maskWrites [Event.write Reg.MI_mask 0x555, Event.mtc0 (m.sr ||| 0x401)] = [0x555] ∧
    (∀ c ∈ [MI_MASK_CLR_SP, MI_MASK_CLR_SI, MI_MASK_CLR_AI, MI_MASK_CLR_VI, MI_MASK_CLR_PI,
        MI_MASK_CLR_DP], 0x555 &&& c = c) ∧
    (∀ c ∈ [MI_MASK_SET_SP, MI_MASK_SET_SI, MI_MASK_SET_AI, MI_MASK_SET_VI, MI_MASK_SET_PI,
        MI_MASK_SET_DP], 0x555 &&& c = 0) ∧
    (init_interrupts m).__interrupt_depth = 0 ∧
    (init_interrupts m).sr = m.sr ||| 0x401 ∧
    (init_interrupts m).IE = true := by
  have hv : MI_MASK_CLR_SP ||| MI_MASK_CLR_SI ||| MI_MASK_CLR_AI ||| MI_MASK_CLR_VI |||
      MI_MASK_CLR_PI ||| MI_MASK_CLR_DP = 0x555 := by decide
  have hb : (m.sr ||| 0x401).testBit 0 = true := by
    rw [Nat.testBit_or]
    have : Nat.testBit 0x401 0 = true := by decide
    simp [this]
  refine ⟨?_, ?_, by decide, by decide, ?_, ?_, ?_⟩
  · simp [init_interrupts, h, Machine.mtc0, Machine.store, hv]
  · simp [maskWrites]
  · simp [init_interrupts, h, Machine.mtc0, Machine.store]
  · simp [init_interrupts, h, Machine.mtc0, Machine.store]
  · simp only [Machine.IE, init_interrupts, h, if_true, Machine.mtc0, Machine.store]
    exact hb

/-- Instance of C16: at the start of the program, with the Status register
holding 0 and with it holding 0xFF00. -/
theorem init_interrupts_first_call_witness :
    (init_interrupts (start 0 0 0 0)).trace =
      (start 0 0 0 0).trace ++ [Event.write Reg.MI_mask 0x555, Event.mtc0 (0 ||| 0x401)] ∧
    (init_interrupts (start 0xFF00 0 0 0)).IE = true :=
  ⟨(init_interrupts_first_call (start 0 0 0 0) (by decide)).1,
   (init_interrupts_first_call (start 0xFF00 0 0 0) (by decide)).2.2.2.2.2.2⟩

/-! ## C17 -/

theorem count_call_invoked (l : List callback_link) (f : Nat) :
    (invoked l).count (Event.call f) =
      if f = 0 then 0 else l.countP (fun n => n.callback = f) := by
  induction l with
  | nil => simp [invoked]
  | cons n l ih =>
    have hstep : invoked (n :: l) =
        (if n.callback ≠ 0 then [Event.call n.callback] else []) ++ invoked l := by
      by_cases hn : n.callback = 0 <;> simp [invoked, hn]
    have hone : ∀ g : Nat, List.count (Event.call f) [Event.call g] = if g = f then 1 else 0 := by
      intro g
      by_cases hg : g = f
      · simp [hg]
      · simp [List.count_cons, hg]
    rw [hstep, List.count_append, ih, List.countP_cons]
    by_cases hf : f = 0
    · subst hf
      by_cases hn : n.callback = 0
      · simp [hn]
      · simp [hn, hone]
    · have hf' : ¬ (0 = f) := fun h => hf h.symm
      by_cases hn : n.callback = 0
      · simp [hn, hf, hf']
      · by_cases hnf : n.callback = f
        · simp [hn, hf, hnf, hone]; omega
        · simp [hn, hf, hnf, hone]

/-- C17: for every list, with or without nodes whose callback is null,
`__call_callback` returns (it is a total function of the list) and changes
the trace only: it adds one call for each node with a non-null callback, in
list order, so that a callback is called once for each node that holds it and
a null callback is never called.  On the empty list the machine is returned
as it was. -/
theorem call_callback_invokes_non_null (l : List callback_link) (m : Machine) :
    __call_callback l m =
      { m with trace := m.trace ++
          (l.filter (fun n => n.callback ≠ 0)).map (fun n => Event.call n.callback) } ∧
    (∀ f : Nat,
      ((l.filter (fun n => n.callback ≠ 0)).map (fun n => Event.call n.callback)).count
          (Event.call f)
        = if f = 0 then 0 else l.countP (fun n => n.callback = f)) ∧
    __call_callback [] m = m := by
  refine ⟨call_callback_frame l m, fun f => count_call_invoked l f, ?_⟩
  simp [__call_callback]

/-! ## C18 -/

/-- C18: each of `set_AI_interrupt`, `set_VI_interrupt`, `set_PI_interrupt` and
`set_DP_interrupt` makes one store to the MI mask register, of the set command
of its source when `active` is not zero and of the clear command when it is
zero (`set_VI_interrupt` also stores the line, to `v_int`, when activating);
what is stored does not depend on the value the mask register delivers when
read.  The twelve command values are the twelve powers of two from bit 0 to
bit 11, so any two of them are different and have no bit in common. -/
theorem set_interrupt_writes_one_command (active : Int) (line : Nat) (m : Machine) :
    ((set_AI_interrupt active m).trace = m.trace ++
        [Event.write Reg.MI_mask (if active ≠ 0 then MI_MASK_SET_AI else MI_MASK_CLR_AI)]) ∧
    ((set_VI_interrupt active line m).trace = m.trace ++
        (if active ≠ 0 then [Event.write Reg.MI_mask MI_MASK_SET_VI, Event.write Reg.VI_v_int line]
          else [Event.write Reg.MI_mask MI_MASK_CLR_VI])) ∧
    (maskWrites (if active ≠ 0 then
          [Event.write Reg.MI_mask MI_MASK_SET_VI, Event.write Reg.VI_v_int line]
        else [Event.write Reg.MI_mask MI_MASK_CLR_VI])
      = [if active ≠ 0 then MI_MASK_SET_VI else MI_MASK_CLR_VI]) ∧
    ((set_PI_interrupt active m).trace = m.trace ++
        [Event.write Reg.MI_mask (if active ≠ 0 then MI_MASK_SET_PI else MI_MASK_CLR_PI)]) ∧
    ((set_DP_interrupt active m).trace = m.trace ++
        [Event.write Reg.MI_mask (if active ≠ 0 then MI_MASK_SET_DP else MI_MASK_CLR_DP)]) ∧
    (∀ v : Nat,
      (set_AI_interrupt active { m with MI_mask := v }).trace = (set_AI_interrupt active m).trace ∧
      (set_VI_interrupt active line { m with MI_mask := v }).trace
        = (set_VI_interrupt active line m).trace ∧
      (set_PI_interrupt active { m with MI_mask := v }).trace = (set_PI_interrupt active m).trace ∧
      (set_DP_interrupt active { m with MI_mask := v }).trace
        = (set_DP_interrupt active m).trace) ∧
    MI_MASK_commands = (List.range 12).map (fun k => 2 ^ k) ∧
    List.Pairwise (fun a b => a ≠ b ∧ a &&& b = 0) MI_MASK_commands := by
  refine ⟨?_, ?_, ?_, ?_, ?_, ?_, by decide, by decide⟩
  · by_cases h : active = 0 <;> simp [set_AI_interrupt, h, Machine.store]
  · by_cases h : active = 0 <;> simp [set_VI_interrupt, h, Machine.store]
  · by_cases h : active = 0 <;> simp [h, maskWrites]
  · by_cases h : active = 0 <;> simp [set_PI_interrupt, h, Machine.store]
  · by_cases h : active = 0 <;> simp [set_DP_interrupt, h, Machine.store]
  · intro v
    by_cases h : active = 0 <;>
      simp [set_AI_interrupt, set_VI_interrupt, set_PI_interrupt, set_DP_interrupt, h,
        Machine.store]

/-! ## C20 -/

/-- C20: for every list and every callback, whether or not the callback is
already in the list, a successful `__register_callback` followed at once by
`__unregister_callback` of the same callback gives back the machine, and so
the list, exactly as it was: the node just put in front is the first match. -/
theorem register_then_unregister_restores (m : Machine) (head : Head) (c : Nat) :
    __unregister_callback (some head) c (__register_callback (some head) c true m) = m ∧
    (__unregister_callback (some head) c
      (__register_callback (some head) c true m)).load head = m.load head := by
  have h : __unregister_callback (some head) c (__register_callback (some head) c true m)
      = m := by
    cases head <;>
      simp [__register_callback, __unregister_callback, Machine.load, Machine.assign,
        unregister_loop]
  rw [h]
  exact ⟨rfl, rfl⟩

/-! ## C19 -/

theorem wrap_int_range (x : Int) : INT_MIN ≤ wrap_int x ∧ wrap_int x ≤ INT_MAX := by
  unfold INT_MIN INT_MAX wrap_int
  omega

theorem consistent_init (m : Machine) (h : Consistent m) : Consistent (init_interrupts m) := by
  by_cases hneg : m.__interrupt_depth < 0
  · have hd : (init_interrupts m).__interrupt_depth = 0 := by
      simp [init_interrupts, hneg, Machine.mtc0, Machine.store]
    have hie : (init_interrupts m).IE = true := by
      simp only [Machine.IE, init_interrupts, hneg, if_true, Machine.mtc0, Machine.store]
      rw [Nat.testBit_or]
      have : Nat.testBit 0x401 0 = true := by decide
      simp [this]
    refine ⟨by rw [hd]; decide, by rw [hd]; decide, fun _ => ?_⟩
    rw [hd, hie]
    simp
  · have : init_interrupts m = m := by
      unfold init_interrupts
      rw [if_neg hneg]
    rw [this]
    exact h

theorem consistent_disable (m : Machine) (h : Consistent m) :
    Consistent (disable_interrupts m) := by
  obtain ⟨h1, h2, h3⟩ := h
  rcases lt_trichotomy m.__interrupt_depth 0 with hd | hd | hd
  · rw [disable_uninit m hd]
    exact ⟨h1, h2, h3⟩
  · have hw : wrap_int (0 + 1) = 1 := by decide
    rw [disable_at_zero m hd, hw]
    refine ⟨by simp [INT_MIN], by simp [INT_MAX], fun _ => ?_⟩
    have : (m.sr &&& 0xFFFFFFFE).testBit 0 = false := and_not_one_testBit _
    simp [Machine.IE, Machine.mtc0, this]
  · have hr := wrap_int_range (m.__interrupt_depth + 1)
    rw [disable_above_zero m hd]
    refine ⟨hr.1, hr.2, fun hge => ?_⟩
    have hie : m.IE = false := by
      have := h3 (by omega)
      cases hb : m.IE
      · rfl
      · exact absurd (this.mp hb) (by omega)
    have hne : wrap_int (m.__interrupt_depth + 1) ≠ 0 := by
      unfold INT_MAX at h2
      unfold wrap_int
      omega
    simp only [Machine.IE] at hie ⊢
    simp [hie, hne]

theorem consistent_enable (m : Machine) (h : Consistent m) :
    Consistent (enable_interrupts m) := by
  obtain ⟨h1, h2, h3⟩ := h
  by_cases hneg : m.__interrupt_depth < 0
  · rw [enable_uninit m hneg]
    exact ⟨h1, h2, h3⟩
  · have hw : wrap_int (m.__interrupt_depth - 1) = m.__interrupt_depth - 1 :=
      wrap_int_id _ (by unfold INT_MIN; omega) (by omega)
    by_cases hz : m.__interrupt_depth - 1 = 0
    · rw [enable_to_zero m (by omega) (by rw [hw]; exact hz), hw, hz]
      refine ⟨by simp [Machine.mtc0, INT_MIN], by simp [Machine.mtc0, INT_MAX], fun _ => ?_⟩
      have : (m.sr ||| 1).testBit 0 = true := or_one_testBit _
      simp [Machine.IE, Machine.mtc0, this]
    · rw [enable_not_to_zero m (by omega) (by rw [hw]; exact hz), hw]
      refine ⟨by simp only []; unfold INT_MIN; omega, by simp only []; omega, fun hge => ?_⟩
      simp only [] at hge
      have hie : m.IE = false := by
        have := h3 (by omega)
        cases hb : m.IE
        · rfl
        · exact absurd (this.mp hb) (by omega)
      simp only [Machine.IE] at hie ⊢
      simp [hie, hz]

theorem consistent_runOps (ops : List Op) : ∀ m : Machine, Consistent m →
    Consistent (runOps ops m) := by
  induction ops with
  | nil => intro m h; exact h
  | cons o ops ih =>
    intro m h
    simp only [runOps]
    apply ih
    cases o
    · exact consistent_init m h
    · exact consistent_disable m h
    · exact consistent_enable m h

/-- While the disables of a sequence cannot take the counter out of `int`,
the counter never falls below -1. -/
theorem runOps_depth_lower (ops : List Op) : ∀ m : Machine, -1 ≤ m.__interrupt_depth →
    max m.__interrupt_depth 0 + ops.count Op.disable ≤ INT_MAX →
    -1 ≤ (runOps ops m).__interrupt_depth := by
  induction ops with
  | nil => intro m h _; exact h
  | cons o ops ih =>
    intro m h hb
    simp only [runOps]
    cases o with
    | init =>
      simp only [Op.exec]
      have hc : (Op.init :: ops).count Op.disable = ops.count Op.disable := by
        simp [List.count_cons]
      rw [hc] at hb
      by_cases hneg : m.__interrupt_depth < 0
      · have hd : (init_interrupts m).__interrupt_depth = 0 := by
          simp [init_interrupts, hneg, Machine.mtc0, Machine.store]
        exact ih _ (by rw [hd]; decide) (by rw [hd]; omega)
      · have : init_interrupts m = m := by
          unfold init_interrupts
          rw [if_neg hneg]
        rw [this]
        exact ih m h hb
    | disable =>
      simp only [Op.exec]
      have hc : (Op.disable :: ops).count Op.disable = ops.count Op.disable + 1 := by
        simp [List.count_cons]
      rw [hc] at hb
      push_cast at hb
      by_cases hneg : m.__interrupt_depth < 0
      · rw [disable_uninit m hneg]
        exact ih m h (by omega)
      · have hd := disable_depth m (by omega) (by omega)
        exact ih _ (by rw [hd]; omega) (by rw [hd]; omega)
    | enable =>
      simp only [Op.exec]
      have hc : (Op.enable :: ops).count Op.disable = ops.count Op.disable := by
        simp [List.count_cons]
      rw [hc] at hb
      by_cases hneg : m.__interrupt_depth < 0
      · rw [enable_uninit m hneg]
        exact ih m h hb
      · have hd := enable_depth m (by omega) (by omega)
        exact ih _ (by rw [hd]; omega) (by rw [hd]; omega)

theorem runOps_disables (n : Nat) : ∀ m : Machine,
    runOps (List.replicate n Op.disable) m = run (List.replicate n Call.disable) m := by
  induction n with
  | zero => intro m; rfl
  | succ n ih =>
    intro m
    rw [List.replicate_succ, List.replicate_succ, runOps.eq_2, run.eq_2, ih]
    rfl

/-- From depth 0, as many disables as it takes to leave the range of `int` end
with the counter at the smallest `int`. -/
theorem run_disables_to_int_min (n : Nat) (m : Machine) (h0 : m.__interrupt_depth = 0)
    (hn : (n : Int) = INT_MAX + 1) :
    (run (List.replicate n Call.disable) m).__interrupt_depth = INT_MIN := by
  unfold INT_MAX at hn
  obtain ⟨k, rfl⟩ : ∃ k, n = (k + 1) + 1 := ⟨n - 2, by omega⟩
  have h1 : wrap_int (0 + 1) = 1 := by decide
  have hmin : wrap_int (1 + (k : Int) + 1) = INT_MIN := by
    unfold wrap_int INT_MIN
    push_cast at hn
    omega
  rw [List.replicate_succ, List.replicate_succ', run.eq_2, run_append]
  simp only [Call.exec]
  rw [disable_at_zero m h0, h1,
    run_disables_inside k _ (by simp) (by simp only []; unfold INT_MAX; push_cast at hn; omega)]
  simp only [run, Call.exec]
  rw [disable_above_zero _ (by simp only []; omega)]
  exact hmin

/-- C19, as stated, fails: the depth can fall below -1.  From the start of the
program, `init_interrupts` followed by 2147483648 calls of `disable_interrupts`
takes the counter out of the range of `int` and leaves it at -2147483648. -/
theorem c19_fails :
    (start 0 0 0 0).__interrupt_depth = -1 ∧
    (runOps (Op.init :: List.replicate 2147483648 Op.disable)
      (start 0 0 0 0)).__interrupt_depth = -2147483648 ∧
    ¬ (-1 ≤ (runOps (Op.init :: List.replicate 2147483648 Op.disable)
      (start 0 0 0 0)).__interrupt_depth) := by
  have h : (runOps (Op.init :: List.replicate 2147483648 Op.disable)
      (start 0 0 0 0)).__interrupt_depth = -2147483648 := by
    rw [runOps.eq_2, runOps_disables]
    exact run_disables_to_int_min 2147483648 _ (by decide) (by decide)
  refine ⟨by decide, h, ?_⟩
  rw [h]
  decide

/-- C19 (amended): in every state reached from the start of the program (depth
-1, any hardware values) by a sequence of `init_interrupts`,
`disable_interrupts` and `enable_interrupts` calls, nothing else writing the
Status register, the depth is within `int`, and whenever the depth is 0 or
more the interrupt-enable flag is set if and only if the depth is 0, that is
if and only if `get_interrupts_state` returns ENABLED.  The depth is -1 or
more as long as the sequence holds at most `INT_MAX` calls of
`disable_interrupts`. -/
theorem reachable_states_consistent (sr intr mask line : Nat) (ops : List Op) :
    INT_MIN ≤ (runOps ops (start sr intr mask line)).__interrupt_depth ∧
    (runOps ops (start sr intr mask line)).__interrupt_depth ≤ INT_MAX ∧
    (0 ≤ (runOps ops (start sr intr mask line)).__interrupt_depth →
      ((runOps ops (start sr intr mask line)).IE = true ↔
        (runOps ops (start sr intr mask line)).__interrupt_depth = 0)) ∧
    (0 ≤ (runOps ops (start sr intr mask line)).__interrupt_depth →
      ((runOps ops (start sr intr mask line)).IE = true ↔
        (get_interrupts_state (runOps ops (start sr intr mask line))).1
          = interrupt_state_t.INTERRUPTS_ENABLED)) ∧
    ((ops.count Op.disable : Int) ≤ INT_MAX →
      -1 ≤ (runOps ops (start sr intr mask line)).__interrupt_depth) := by
  have hs : Consistent (start sr intr mask line) := by
    refine ⟨by simp [start, INT_MIN], by simp [start, INT_MAX], fun h => ?_⟩
    exact absurd h (by simp [start])
  obtain ⟨h1, h2, h3⟩ := consistent_runOps ops _ hs
  refine ⟨h1, h2, h3, ?_, ?_⟩
  · intro hge
    rw [h3 hge]
    by_cases hz : (runOps ops (start sr intr mask line)).__interrupt_depth = 0
    · simp [get_interrupts_state, hz]
    · have hn : ¬ (runOps ops (start sr intr mask line)).__interrupt_depth < 0 := by omega
      simp [get_interrupts_state, hz, hn]
  · intro hc
    apply runOps_depth_lower ops _ (by simp [start])
    have : (start sr intr mask line).__interrupt_depth = -1 := rfl
    rw [this]
    simpa using hc

/-- Instance of C19 (amended): after init, disable, disable, enable the depth
is 1, the flag is clear, and the depth is not below -1. -/
theorem reachable_states_consistent_witness :
    ((runOps [Op.init, Op.disable, Op.disable, Op.enable] (start 0 0 0 0)).IE = true ↔
      (runOps [Op.init, Op.disable, Op.disable, Op.enable]
        (start 0 0 0 0)).__interrupt_depth = 0) ∧
    -1 ≤ (runOps [Op.init, Op.disable, Op.disable, Op.enable]
      (start 0 0 0 0)).__interrupt_depth :=
  ⟨(reachable_states_consistent 0 0 0 0 [Op.init, Op.disable, Op.disable, Op.enable]).2.2.1
      (by decide),
   (reachable_states_consistent 0 0 0 0 [Op.init, Op.disable, Op.disable, Op.enable]).2.2.2.2
      (by decide)⟩

end Interrupt
